import Mathlib

/-!
# Verification of the web-crawler coordination engine

A shallow embedding, in Lean 4, of the parts of the crawler that the
specification's claims speak about:

* `src/crawler/models.py` — `CrawlStatus`, `PageType`, `CrawlRequest`,
  `CrawlResult` (with `to_dict` / `from_dict`), `CrawlStats`;
* `src/crawler/frontier.py` — `MemoryFrontier` (`add`, `get`,
  `mark_visited`, `size`);
* `src/crawler/worker.py` — the child-request construction and the
  statistics discipline of the worker loop, the latter as a small-step
  transition system over the shared counters;
* `src/crawler/fetcher.py` — `StaticFetcher.fetch` / `_do_fetch` with the
  network modelled as an oracle from attempt numbers to outcomes;
* `src/crawler/parser.py` — `ContentParser._extract_title` over an
  abstraction of a parsed document;
* `src/crawler/link_extractor.py` — `LinkExtractor._normalize_url`,
  together with a character-level model of the pieces of CPython
  `urllib.parse` (`urlsplit`, `urlparse`, `urlunsplit`, `urlunparse`) it
  calls;
* `src/crawler/storage.py` — `JsonStorage.save` / `JsonStorage.get` over
  the in-memory results dictionary.

Machine integers are modelled as `Nat` / `Int` (Python integers are
unbounded, so no wrap-around is needed); Python floats that are only ever
multiplied by powers of two and compared are modelled as `ℚ`; Python sets
of strings are modelled as duplicate-free `List String` used through
membership; Python dicts keyed by URL are association lists.
-/

namespace Crawler

/-! ## Data models (`src/crawler/models.py`) -/

/-- `CrawlStatus` enum (`models.py` lines 14-20). -/
inductive CrawlStatus where
  | pending
  | in_progress
  | completed
  | failed
  | skipped
deriving DecidableEq

/-- The `.value` string of a `CrawlStatus` member. -/
def CrawlStatus.value : CrawlStatus → String
  | .pending => "pending"
  | .in_progress => "in_progress"
  | .completed => "completed"
  | .failed => "failed"
  | .skipped => "skipped"

/-- The enum constructor `CrawlStatus(s)`: returns the member with the
given value, or `none` where Python raises `ValueError`. -/
def CrawlStatus.ofValue : String → Option CrawlStatus
  | "pending" => some .pending
  | "in_progress" => some .in_progress
  | "completed" => some .completed
  | "failed" => some .failed
  | "skipped" => some .skipped
  | _ => none

/-- `PageType` enum (`models.py` lines 23-26). -/
inductive PageType where
  | static
  | dynamic
deriving DecidableEq

/-- `CrawlRequest` dataclass (`models.py` lines 29-49).  Depths are
non-negative Python ints, modelled as `Nat`; `priority` is a signed int,
modelled as `Int`.  Defaults are the dataclass defaults. -/
structure CrawlRequest where
  url : String
  depth : Nat := 0
  max_depth : Nat := 3
  parent_url : Option String := none
  priority : Int := 0
  page_type : PageType := .static
deriving DecidableEq

/-- A timezone-aware or naive `datetime.datetime` restricted to
whole-minute UTC offsets, which is all the crawler ever constructs
(`datetime.now(timezone.utc)`).  `utcOffsetMinutes = none` models a naive
datetime. -/
structure Datetime where
  year : Nat
  month : Nat
  day : Nat
  hour : Nat
  minute : Nat
  second : Nat
  microsecond : Nat
  utcOffsetMinutes : Option Int
deriving DecidableEq

/-- The Unix epoch, standing in for the irrelevant creation timestamp of
results the model builds (`crawled_at` defaults to the current time in the
source; the claims never depend on its value). -/
def epochDatetime : Datetime :=
  { year := 1970, month := 1, day := 1, hour := 0, minute := 0, second := 0,
    microsecond := 0, utcOffsetMinutes := some 0 }

/-- The free-form `metadata` mapping (`Dict[str, Any]`).  The crawler only
ever passes it through unchanged, so its values are modelled as strings. -/
abbrev Metadata := List (String × String)

/-- `CrawlResult` dataclass (`models.py` lines 52-69). -/
structure CrawlResult where
  url : String
  status_code : Nat := 0
  content_type : String := ""
  html : String := ""
  text : String := ""
  title : String := ""
  links : List String := []
  metadata : Metadata := []
  crawled_at : Datetime := epochDatetime
  depth : Nat := 0
  parent_url : Option String := none
  elapsed_time : ℚ := 0
  status : CrawlStatus := .pending
  error : Option String := none
  headers : List (String × String) := []
deriving DecidableEq

/-- `CrawlStats` dataclass (`models.py` lines 99-108), restricted to the
counters; the timestamps and domain set are irrelevant to the claims. -/
structure CrawlStats where
  total_urls_found : Nat := 0
  total_pages_crawled : Nat := 0
  total_pages_failed : Nat := 0
  total_pages_skipped : Nat := 0
  total_bytes_downloaded : Nat := 0
deriving DecidableEq

/-! ## The in-memory frontier (`src/crawler/frontier.py`, `MemoryFrontier`)

The Python queue is a `heapq` binary heap of tuples
`(-request.priority, counter, request)` with a strictly increasing
insertion counter, so every pop returns the entry that is least in the
lexicographic order on `(-priority, counter)` — the counters are pairwise
distinct, so the `request` component is never compared.  The model keeps
the entries as a plain list and realises each `heappop` as removal of the
least entry, which is observationally the behaviour of the heap. -/

/-- One heap entry `(-request.priority, counter, request)`. -/
structure QueueEntry where
  negPriority : Int
  counter : Nat
  request : CrawlRequest
deriving DecidableEq

/-- The lexicographic order on `(-priority, counter)` used by the heap. -/
def keyLE (a b : QueueEntry) : Prop :=
  a.negPriority < b.negPriority ∨
    (a.negPriority = b.negPriority ∧ a.counter ≤ b.counter)

instance : DecidableRel keyLE := fun _a _b =>
  inferInstanceAs (Decidable (_ ∨ _))

instance : IsTotal QueueEntry keyLE where
  total a b := by
    unfold keyLE
    rcases lt_trichotomy a.negPriority b.negPriority with h | h | h
    · exact Or.inl (Or.inl h)
    · rcases Nat.le_total a.counter b.counter with hc | hc
      · exact Or.inl (Or.inr ⟨h, hc⟩)
      · exact Or.inr (Or.inr ⟨h.symm, hc⟩)
    · exact Or.inr (Or.inl h)

instance : IsTrans QueueEntry keyLE where
  trans a b c hab hbc := by
    unfold keyLE at *
    rcases hab with h1 | ⟨h1, h1c⟩ <;> rcases hbc with h2 | ⟨h2, h2c⟩
    · exact Or.inl (h1.trans h2)
    · exact Or.inl (h2 ▸ h1)
    · exact Or.inl (h1 ▸ h2)
    · exact Or.inr ⟨h1.trans h2, h1c.trans h2c⟩

/-- `MemoryFrontier` state (`frontier.py` lines 53-58): the heap list, the
insertion counter, and the two deduplication sets.  The `asyncio.Lock`
serialises the operations, so the model is a sequential state machine. -/
structure MemoryFrontier where
  queue : List QueueEntry := []
  counter : Nat := 0
  visited : List String := []
  in_queue : List String := []
deriving DecidableEq

/-- A freshly constructed frontier. -/
def emptyFrontier : MemoryFrontier := {}

/-- `MemoryFrontier.add` (`frontier.py` lines 60-67): reject a URL that is
visited or queued, otherwise push `(-priority, counter, request)`, bump
the counter, and record the URL as in-queue. -/
def MemoryFrontier.add (s : MemoryFrontier) (request : CrawlRequest) :
    MemoryFrontier × Bool :=
  if request.url ∈ s.visited ∨ request.url ∈ s.in_queue then
    (s, false)
  else
    ({ s with
        queue := s.queue ++ [⟨-request.priority, s.counter, request⟩],
        counter := s.counter + 1,
        in_queue := request.url :: s.in_queue },
      true)

/-- Remove the URLs of the given entries from an `in_queue` set
(`self._in_queue.discard(request.url)` once per popped entry). -/
def removeUrls (inq : List String) (es : List QueueEntry) : List String :=
  es.foldl (fun acc e => acc.erase e.request.url) inq

/-- `MemoryFrontier.get` (`frontier.py` lines 69-76).  The loop pops heap
minima, discarding each from `in_queue`, until it finds an entry whose URL
is not visited; that request is returned.  Popping minima in succession
enumerates the entries in ascending key order, so the loop is realised by
sorting the queue by `keyLE`, discarding the visited prefix, and returning
the head of the remainder. -/
def MemoryFrontier.get (s : MemoryFrontier) :
    MemoryFrontier × Option CrawlRequest :=
  match (List.insertionSort keyLE s.queue).dropWhile
      (fun e => decide (e.request.url ∈ s.visited)) with
  | [] =>
      ({ s with
          queue := [],
          in_queue := removeUrls s.in_queue
            ((List.insertionSort keyLE s.queue).takeWhile
              (fun e => decide (e.request.url ∈ s.visited))) },
        none)
  | e :: rest₂ =>
      ({ s with
          queue := rest₂,
          in_queue := (removeUrls s.in_queue
            ((List.insertionSort keyLE s.queue).takeWhile
              (fun e => decide (e.request.url ∈ s.visited)))).erase e.request.url },
        some e.request)

/-- `MemoryFrontier.mark_visited` (`frontier.py` lines 78-80). -/
def MemoryFrontier.markVisited (s : MemoryFrontier) (url : String) :
    MemoryFrontier :=
  { s with visited := s.visited.insert url }

/-- `MemoryFrontier.is_visited` (`frontier.py` lines 82-83). -/
def MemoryFrontier.isVisited (s : MemoryFrontier) (url : String) : Prop :=
  url ∈ s.visited

/-- `MemoryFrontier.size` (`frontier.py` lines 85-86). -/
def MemoryFrontier.size (s : MemoryFrontier) : Nat :=
  s.queue.length

/-- The frontier operations a crawl run performs.  Workers and the
orchestrator only ever call `add`, `get` and `mark_visited` during a run;
`clear` is never invoked while a crawl is in progress. -/
inductive FrontierOp where
  | add (request : CrawlRequest)
  | get
  | markVisited (url : String)

/-- Apply one operation, keeping only the state. -/
def applyFrontierOp (s : MemoryFrontier) : FrontierOp → MemoryFrontier
  | .add r => (s.add r).1
  | .get => s.get.1
  | .markVisited u => s.markVisited u

/-- Run a sequence of frontier operations. -/
def runFrontierOps (s : MemoryFrontier) (ops : List FrontierOp) : MemoryFrontier :=
  ops.foldl applyFrontierOp s

/-- Well-formedness of a frontier state: every queue entry carries the
negated priority of its request, as `add` always arranges
(`heappush(self._queue, (-request.priority, self._counter, request))`). -/
def FrontierWF (s : MemoryFrontier) : Prop :=
  ∀ e ∈ s.queue, e.negPriority = -e.request.priority

/-! ## Worker child requests (`src/crawler/worker.py` lines 152-164) -/

/-- The child request built for one extracted link (`worker.py` lines
155-161): depth is the parent depth plus one, max depth is inherited, the
parent URL is the parent request URL, and the priority is
`request.max_depth - request.depth - 1` computed on the parent fields. -/
def makeChildRequest (request : CrawlRequest) (link : String) : CrawlRequest :=
  { url := link,
    depth := request.depth + 1,
    max_depth := request.max_depth,
    parent_url := some request.url,
    priority := (request.max_depth : Int) - (request.depth : Int) - 1,
    page_type := .static }

/-- The requests a worker offers to the frontier for a processed page
(`worker.py` lines 153-162): one child per extracted link, but only when
`request.depth < request.max_depth`. -/
def childRequests (request : CrawlRequest) (links : List String) :
    List CrawlRequest :=
  if request.depth < request.max_depth then
    links.map (makeChildRequest request)
  else
    []

/-! ## The worker pool as a transition system (`src/crawler/worker.py`)

`CrawlWorker.run` loops: it breaks out once
`stats.total_pages_crawled >= max_pages` (line 74), otherwise pops a
request and processes it.  Processing one request bumps exactly one of the
three page counters: robots denial bumps `total_pages_skipped` (line 99),
a failed fetch bumps `total_pages_failed` (line 119), a skipped fetch
bumps `total_pages_skipped` (line 121), a successful page bumps
`total_pages_crawled` (line 142), and a raised exception is caught in
`run` and bumps `total_pages_failed` (line 88).  The steps of the
`num_workers` cooperatively scheduled workers interleave; the model keeps
the shared counters plus the number of workers that have passed the budget
check and not yet committed their outcome. -/

/-- The per-request outcome, by which counter it increments. -/
inductive WorkerOutcome where
  | crawledPage
  | failedPage
  | skippedPage

/-- Commit one outcome to the shared counters. -/
def applyOutcome (st : CrawlStats) : WorkerOutcome → CrawlStats
  | .crawledPage => { st with total_pages_crawled := st.total_pages_crawled + 1 }
  | .failedPage => { st with total_pages_failed := st.total_pages_failed + 1 }
  | .skippedPage => { st with total_pages_skipped := st.total_pages_skipped + 1 }

/-- Shared state of a crawl run: the statistics record and the number of
workers currently between the budget check and their outcome commit. -/
structure PoolState where
  stats : CrawlStats
  active : Nat
deriving DecidableEq

/-- The state at the start of a run: zeroed counters, no worker past the
budget check. -/
def initPoolState : PoolState := { stats := {}, active := 0 }

/-- One scheduler step of the pool.  `beginWork` is a worker observing
`total_pages_crawled < max_pages` at the top of its loop (`worker.py` line
74) and popping a request; `commit` is a worker finishing the request and
bumping the one counter its outcome dictates. -/
inductive PoolStep (maxPages numWorkers : Nat) : PoolState → PoolState → Prop where
  | beginWork (s : PoolState)
      (hBudget : s.stats.total_pages_crawled < maxPages)
      (hIdle : s.active < numWorkers) :
      PoolStep maxPages numWorkers s { s with active := s.active + 1 }
  | commit (s : PoolState) (o : WorkerOutcome) (hActive : 0 < s.active) :
      PoolStep maxPages numWorkers s
        { stats := applyOutcome s.stats o, active := s.active - 1 }

/-- Reachability of a pool state from the start of a run. -/
def PoolReachable (maxPages numWorkers : Nat) (s : PoolState) : Prop :=
  Relation.ReflTransGen (PoolStep maxPages numWorkers) initPoolState s

/-- The sum of the three page counters. -/
def pagesTotal (st : CrawlStats) : Nat :=
  st.total_pages_crawled + st.total_pages_failed + st.total_pages_skipped

/-! ## The static fetcher (`src/crawler/fetcher.py`, `StaticFetcher`)

The network is modelled as an oracle mapping the attempt number to what
`_do_fetch` encounters on that attempt: either an HTTP response (any
status code, including 4xx/5xx) or one of the three exception classes the
retry loop catches. -/

/-- What `session.get` delivered on a successful attempt. -/
structure HttpResponse where
  url : String
  status : Nat
  content_type : String
  body : String
  headers : List (String × String)
  elapsed : ℚ
deriving DecidableEq

/-- The outcome of one `_do_fetch` call: a response, or one of the
exceptions caught by `fetch` (`fetcher.py` lines 73-78). -/
inductive AttemptOutcome where
  | response (resp : HttpResponse)
  | timedOut
  | clientError (msg : String)
  | genericError (msg : String)

/-- The `last_error` string recorded for a failed attempt (`fetcher.py`
lines 73-78); responses never produce one. -/
def errorMessage : AttemptOutcome → String
  | .response _ => ""
  | .timedOut => "Request timed out"
  | .clientError m => m
  | .genericError m => m

/-- The content-type gate of `_do_fetch` (`fetcher.py` line 104):
`"text/html" in content_type or "text/plain" in content_type`. -/
def isHtmlLike (ct : String) : Prop :=
  "text/html".data <:+: ct.data ∨ "text/plain".data <:+: ct.data

instance (ct : String) : Decidable (isHtmlLike ct) :=
  inferInstanceAs (Decidable (_ ∨ _))

/-- The result `_do_fetch` builds from a response (`fetcher.py` lines
102-128): a `skipped` result for a non-HTML content type, otherwise a
`completed` result carrying the final URL, status code, body and headers. -/
def doFetchResult (request : CrawlRequest) (resp : HttpResponse) : CrawlResult :=
  if ¬ isHtmlLike resp.content_type then
    { url := resp.url, status_code := resp.status,
      content_type := resp.content_type, depth := request.depth,
      parent_url := request.parent_url, elapsed_time := resp.elapsed,
      status := .skipped,
      error := some ("Non-HTML content: " ++ resp.content_type) }
  else
    { url := resp.url, status_code := resp.status,
      content_type := resp.content_type, html := resp.body,
      depth := request.depth, parent_url := request.parent_url,
      elapsed_time := resp.elapsed, status := .completed,
      headers := resp.headers }

/-- The retry-relevant configuration of `StaticFetcher` (`fetcher.py`
lines 34-48); the session options (user agent, timeout, redirect policy)
play no part in the retry state machine. -/
structure StaticFetcher where
  max_retries : Nat := 3
  retry_delay : ℚ := 1

/-- The attempt loop of `StaticFetcher.fetch` (`fetcher.py` lines 68-82):
`attempt` is the current attempt number and `remaining` the loop
iterations left (the loop runs `max_retries + 1` times); `lastError`
tracks the last recorded error.  Returns the result of the first
successful `_do_fetch` (`none` when every attempt raised), the final
`last_error`, the number of attempts made, and the back-off delays slept,
in order — a delay of `retry_delay * 2 ^ attempt` is slept after every
failed attempt except the last one. -/
def fetchAux (f : StaticFetcher) (oracle : Nat → AttemptOutcome)
    (request : CrawlRequest) :
    Nat → Nat → Option String → Option CrawlResult × Option String × Nat × List ℚ
  | _, 0, lastError => (none, lastError, 0, [])
  | attempt, remaining + 1, lastError =>
    match oracle attempt with
    | .response resp => (some (doFetchResult request resp), lastError, 1, [])
    | outcome =>
        let msg := errorMessage outcome
        let delays :=
          if attempt < f.max_retries then [f.retry_delay * 2 ^ attempt] else []
        let r := fetchAux f oracle request (attempt + 1) remaining (some msg)
        (r.1, r.2.1, r.2.2.1 + 1, delays ++ r.2.2.2)

/-- `StaticFetcher.fetch` (`fetcher.py` lines 66-90): run the attempt loop
from attempt 0; when no attempt succeeded, build the `failed` result
carrying the last error message.  Besides the result it returns the
attempt count and the list of slept delays, which the claims are about. -/
def StaticFetcher.fetch (f : StaticFetcher) (oracle : Nat → AttemptOutcome)
    (request : CrawlRequest) : CrawlResult × Nat × List ℚ :=
  match (fetchAux f oracle request 0 (f.max_retries + 1) none).1 with
  | some result =>
      (result, (fetchAux f oracle request 0 (f.max_retries + 1) none).2.2.1,
        (fetchAux f oracle request 0 (f.max_retries + 1) none).2.2.2)
  | none =>
      ({ url := request.url, depth := request.depth,
         parent_url := request.parent_url, status := .failed,
         error := (fetchAux f oracle request 0 (f.max_retries + 1) none).2.1 },
        (fetchAux f oracle request 0 (f.max_retries + 1) none).2.2.1,
        (fetchAux f oracle request 0 (f.max_retries + 1) none).2.2.2)

/-! ## Title extraction (`src/crawler/parser.py`, `_extract_title`) -/

/-- Abstraction of a BeautifulSoup document, restricted to what
`_extract_title` queries: for each `<title>` tag in document order its
`.string` (`none` when the tag has no unique text child, as for
`<title></title>` or a title with nested markup), and for each `<h1>` in
document order its raw text (the model applies the stripping of
`get_text(strip=True)` itself). -/
structure SoupDoc where
  titleStrings : List (Option String)
  h1Texts : List String
deriving DecidableEq

/-- Python `str.strip()` with no argument (ASCII whitespace range), on
the character list of a string. -/
def stripList (cs : List Char) : List Char :=
  ((cs.dropWhile Char.isWhitespace).reverse.dropWhile Char.isWhitespace).reverse

/-- Python `str.strip()` on strings. -/
def pyStrip (s : String) : String := ⟨stripList s.data⟩

/-- The `<h1>` fallback of `_extract_title` (`parser.py` lines 132-135):
the stripped text of the first `<h1>`, or the empty string. -/
def firstH1Text (doc : SoupDoc) : String :=
  match doc.h1Texts.head? with
  | some t => pyStrip t
  | none => ""

/-- `ContentParser._extract_title` (`parser.py` lines 128-135).
`soup.find("title")` is the head of the title list; the Python truthiness
test `if title_tag and title_tag.string` passes exactly when the first
title tag exists and its `.string` is a non-`None`, non-empty string; in
that case the stripped string is returned with no fallback. -/
def extractTitle (doc : SoupDoc) : String :=
  match doc.titleStrings.head? with
  | some (some s) => if s ≠ "" then pyStrip s else firstH1Text doc
  | some none => firstH1Text doc
  | none => firstH1Text doc

/-- The title rule as the specification words it: the first non-empty
`<title>` text, then the first `<h1>` text, then the empty string.  This
definition is translated from the spec sentence, not from the code; it is
the reference point for the title claim. -/
def specTitle (doc : SoupDoc) : String :=
  match (((doc.titleStrings.filterMap id).map pyStrip).filter
      (fun s => decide (s ≠ ""))).head? with
  | some s => s
  | none => firstH1Text doc

end Crawler

/-! ## CPython `urllib.parse`, character-level model

`LinkExtractor._normalize_url` calls `urlparse` and `urlunparse`.  This
namespace models the relevant code paths of CPython 3.11
`urllib/parse.py` on lists of characters: removal of tab/CR/LF, stripping
of leading C0-control and space characters, scheme recognition and
lowercasing, netloc splitting, fragment and query splitting, and the
params split on the last path segment for schemes that use parameters.
Not modelled: the IPv6 validation of bracketed hosts (bracketed netlocs
with matching brackets pass through; mismatched brackets raise
`ValueError`, here `none`) and non-ASCII lowercasing — neither affects
any theorem below, whose URLs contain no brackets and only ASCII. -/

namespace UrlModel

/-- ASCII lowercasing of one character (`str.lower`, ASCII range). -/
def lowerChar (c : Char) : Char :=
  if 65 ≤ c.toNat ∧ c.toNat ≤ 90 then Char.ofNat (c.toNat + 32) else c

/-- ASCII lowercasing of a string. -/
def lowerStr (cs : List Char) : List Char := cs.map lowerChar

def isAsciiAlpha (c : Char) : Bool :=
  (65 ≤ c.toNat && c.toNat ≤ 90) || (97 ≤ c.toNat && c.toNat ≤ 122)

def isAsciiDigit (c : Char) : Bool := 48 ≤ c.toNat && c.toNat ≤ 57

/-- Membership in `scheme_chars` of `urllib.parse`. -/
def isSchemeChar (c : Char) : Bool :=
  isAsciiAlpha c || isAsciiDigit c || c == '+' || c == '-' || c == '.'

/-- `_UNSAFE_URL_BYTES_TO_REMOVE`: tab, carriage return and newline are
removed anywhere in the URL before splitting. -/
def isUnsafeByte (c : Char) : Bool := c == '\t' || c == '\r' || c == '\n'

def removeUnsafe (cs : List Char) : List Char :=
  cs.filter (fun c => !(isUnsafeByte c))

/-- `_WHATWG_C0_CONTROL_OR_SPACE`: code points up to 0x20, stripped from
the left end only. -/
def isC0OrSpace (c : Char) : Bool := c.toNat ≤ 32

def lstripC0 (cs : List Char) : List Char := cs.dropWhile isC0OrSpace

/-- Split at the first occurrence of `c`: the text before it and, when it
occurs, `some` remainder after it (`str.split(c, 1)`). -/
def splitOnceChar (c : Char) : List Char → List Char × Option (List Char)
  | [] => ([], none)
  | x :: xs =>
    if x = c then ([], some xs)
    else
      let r := splitOnceChar c xs
      (x :: r.1, r.2)

/-- Scheme recognition of `urlsplit`: when the text before the first `:`
is non-empty, starts with an ASCII letter and consists of scheme
characters, it is the scheme, lowercased; otherwise there is no scheme. -/
def splitScheme (url : List Char) : List Char × List Char :=
  match url.span isSchemeChar with
  | (pre, rest) =>
    match rest with
    | r :: rest₂ =>
      if r = ':' then
        match pre with
        | c :: _ => if isAsciiAlpha c then (lowerStr pre, rest₂) else ([], url)
        | [] => ([], url)
      else ([], url)
    | [] => ([], url)

/-- `_splitnetloc`: after a leading `//`, the netloc runs to the first
`/`, `?` or `#`. -/
def splitNetloc (url : List Char) : List Char × List Char :=
  match url with
  | a :: b :: rest =>
      if a = '/' ∧ b = '/' then
        ((rest.span (fun c => !(c == '/' || c == '?' || c == '#'))).1,
          (rest.span (fun c => !(c == '/' || c == '?' || c == '#'))).2)
      else ([], url)
  | _ => ([], url)

/-- The mismatched-bracket test of `urlsplit`, which raises
`ValueError("Invalid IPv6 URL")`. -/
def bracketMismatch (netloc : List Char) : Bool :=
  (netloc.contains '[' && !(netloc.contains ']')) ||
    (netloc.contains ']' && !(netloc.contains '['))

structure SplitResult where
  scheme : List Char
  netloc : List Char
  path : List Char
  query : List Char
  fragment : List Char
deriving DecidableEq

/-- `urlsplit(url)` with `allow_fragments=True`; `none` models the
`ValueError` on mismatched netloc brackets. -/
def urlsplit (rawUrl : List Char) : Option SplitResult :=
  match splitNetloc (splitScheme (lstripC0 (removeUnsafe rawUrl))).2 with
  | (netloc, rest) =>
    if bracketMismatch netloc then none
    else
      match splitOnceChar '#' rest with
      | (rest₂, frag) =>
        match splitOnceChar '?' rest₂ with
        | (p, qu) =>
          some ⟨(splitScheme (lstripC0 (removeUnsafe rawUrl))).1, netloc, p,
            qu.getD [], frag.getD []⟩

/-- `uses_params` of `urllib.parse`. -/
def usesParams : List (List Char) :=
  ["", "ftp", "hdl", "prospero", "http", "imap", "mailto", "sip", "sips",
   "snews", "telnet", "rtsp", "rtspu", "shttp", "https", "tel"].map String.data

/-- `_splitparams`: split `;params` off the last path segment.  When the
path contains a `/`, the search for `;` starts at the last `/`, so a `;`
in an earlier segment is not a parameter separator. -/
def splitparams (url : List Char) : List Char × List Char :=
  if url.contains '/' then
    let rev := url.reverse.span (fun c => !(c == '/'))
    let seg := rev.1.reverse
    let front := rev.2.reverse
    let p := splitOnceChar ';' seg
    match p.2 with
    | some params => (front ++ p.1, params)
    | none => (url, [])
  else
    let p := splitOnceChar ';' url
    (p.1, p.2.getD [])

structure ParseResult where
  scheme : List Char
  netloc : List Char
  path : List Char
  params : List Char
  query : List Char
  fragment : List Char
deriving DecidableEq

/-- `urlparse(url)`: split, then split params off the path when the
scheme uses parameters and the path contains a `;`. -/
def urlparse (u : List Char) : Option ParseResult :=
  (urlsplit u).map fun s =>
    if s.scheme ∈ usesParams ∧ s.path.contains ';' then
      let p := splitparams s.path
      ⟨s.scheme, s.netloc, p.1, p.2, s.query, s.fragment⟩
    else
      ⟨s.scheme, s.netloc, s.path, [], s.query, s.fragment⟩

/-- `urlunsplit`: reassemble scheme, netloc, path, query and fragment. -/
def urlunsplit (scheme netloc path query fragment : List Char) : List Char :=
  let url1 :=
    if netloc ≠ [] ∨ path.take 2 = ['/', '/'] then
      let p := if path ≠ [] ∧ path.head? ≠ some '/' then '/' :: path else path
      '/' :: '/' :: (netloc ++ p)
    else path
  let url2 := if scheme ≠ [] then scheme ++ ':' :: url1 else url1
  let url3 := if query ≠ [] then url2 ++ '?' :: query else url2
  if fragment ≠ [] then url3 ++ '#' :: fragment else url3

/-- `urlunparse`: re-attach `;params` to the path, then `urlunsplit`. -/
def urlunparse (scheme netloc path params query fragment : List Char) :
    List Char :=
  let p := if params ≠ [] then path ++ ';' :: params else path
  urlunsplit scheme netloc p query fragment

/-- `str.rstrip("/")`: remove every trailing slash. -/
def rstripSlashes (cs : List Char) : List Char :=
  (cs.reverse.dropWhile (fun c => c == '/')).reverse

/-- The path step of `_normalize_url` (`link_extractor.py` lines 78-79):
`if path != "/" and path.endswith("/"): path = path.rstrip("/")`. -/
def normPath (path : List Char) : List Char :=
  if path ≠ ['/'] ∧ path.getLast? = some '/' then rstripSlashes path
  else path

/-- `LinkExtractor._normalize_url` (`link_extractor.py` lines 72-83):
lowercase scheme and netloc, strip the trailing slashes of a non-root
path that ends in `/`, drop the fragment when configured, reassemble.
`none` models the `except Exception: return None` guard. -/
def normalizeUrl (stripFragments : Bool) (u : List Char) : Option (List Char) :=
  (urlparse u).map fun p =>
    urlunparse (lowerStr p.scheme) (lowerStr p.netloc) (normPath p.path)
      p.params p.query (if stripFragments then [] else p.fragment)

/-- The characters a well-formed host may contain: no netloc delimiter,
no bracket, none of the removed unsafe bytes. -/
def hostOk (c : Char) : Prop :=
  c ≠ '/' ∧ c ≠ '?' ∧ c ≠ '#' ∧ c ≠ '[' ∧ c ≠ ']' ∧
    c ≠ '\t' ∧ c ≠ '\r' ∧ c ≠ '\n'

instance (c : Char) : Decidable (hostOk c) :=
  inferInstanceAs (Decidable (_ ∧ _))

/-- The characters a well-formed path may contain: no parameter
separator, no query or fragment delimiter, none of the unsafe bytes. -/
def pathOk (c : Char) : Prop :=
  c ≠ ';' ∧ c ≠ '?' ∧ c ≠ '#' ∧ c ≠ '\t' ∧ c ≠ '\r' ∧ c ≠ '\n'

instance (c : Char) : Decidable (pathOk c) :=
  inferInstanceAs (Decidable (_ ∧ _))

/-- The characters a well-formed query may contain: no fragment
delimiter, none of the unsafe bytes. -/
def queryOk (c : Char) : Prop :=
  c ≠ '#' ∧ c ≠ '\t' ∧ c ≠ '\r' ∧ c ≠ '\n'

instance (c : Char) : Decidable (queryOk c) :=
  inferInstanceAs (Decidable (_ ∧ _))

end UrlModel

namespace Crawler

/-! ## ISO-8601 timestamps (`datetime.isoformat` / `fromisoformat`)

`to_dict` serialises `crawled_at` with `isoformat()` and `from_dict`
recovers it with `fromisoformat()`.  The model renders the format the
crawler's datetimes produce — `YYYY-MM-DDTHH:MM:SS[.ffffff][±HH:MM]` —
and parses exactly that shape back, the fragment of `fromisoformat`
exercised by the round trip. -/

/-- The decimal digit character for `n % 10`. -/
def digitChar (n : Nat) : Char := Char.ofNat (48 + n % 10)

/-- Fixed-width decimal rendering, `%0wd` for values below `10 ^ w`. -/
def natDigits : Nat → Nat → List Char
  | 0, _ => []
  | w + 1, n => natDigits w (n / 10) ++ [digitChar (n % 10)]

/-- Read a digit string back as a number. -/
def digitsToNat (cs : List Char) : Nat :=
  cs.foldl (fun a c => a * 10 + (c.toNat - 48)) 0

/-- `datetime.isoformat()` for the datetimes the model carries.  The
fraction is printed only for a non-zero microsecond field and the offset
only for aware datetimes, as in CPython. -/
def Datetime.isoformat (d : Datetime) : List Char :=
  natDigits 4 d.year ++ '-' :: natDigits 2 d.month ++ '-' :: natDigits 2 d.day ++
    'T' :: natDigits 2 d.hour ++ ':' :: natDigits 2 d.minute ++
    ':' :: natDigits 2 d.second ++
    (if d.microsecond ≠ 0 then '.' :: natDigits 6 d.microsecond else []) ++
    (match d.utcOffsetMinutes with
     | none => []
     | some m =>
       (if m < 0 then '-' else '+') ::
         (natDigits 2 (m.natAbs / 60) ++ ':' :: natDigits 2 (m.natAbs % 60)))

/-- Parse a fixed-width run of digits, returning the value and the rest. -/
def parseFixedNat (w : Nat) (cs : List Char) : Option (Nat × List Char) :=
  let pre := cs.take w
  if pre.length = w ∧ pre.all UrlModel.isAsciiDigit then
    some (digitsToNat pre, cs.drop w)
  else none

/-- Require one specific character. -/
def expectChar (c : Char) : List Char → Option (List Char)
  | x :: xs => if x = c then some xs else none
  | [] => none

/-- The `YYYY-MM-DDTHH:MM:SS` part of `fromisoformat`: the six fields and
the unconsumed remainder. -/
def parseIsoDateTime (cs : List Char) :
    Option (Nat × Nat × Nat × Nat × Nat × Nat × List Char) :=
  match parseFixedNat 4 cs with
  | none => none
  | some (y, cs) =>
  match expectChar '-' cs with
  | none => none
  | some cs =>
  match parseFixedNat 2 cs with
  | none => none
  | some (mo, cs) =>
  match expectChar '-' cs with
  | none => none
  | some cs =>
  match parseFixedNat 2 cs with
  | none => none
  | some (da, cs) =>
  match expectChar 'T' cs with
  | none => none
  | some cs =>
  match parseFixedNat 2 cs with
  | none => none
  | some (h, cs) =>
  match expectChar ':' cs with
  | none => none
  | some cs =>
  match parseFixedNat 2 cs with
  | none => none
  | some (mi, cs) =>
  match expectChar ':' cs with
  | none => none
  | some cs =>
  match parseFixedNat 2 cs with
  | none => none
  | some (s, cs) => some (y, mo, da, h, mi, s, cs)

/-- The optional `.ffffff` fraction: six digits when a dot follows,
otherwise zero microseconds. -/
def parseIsoFraction : List Char → Option (Nat × List Char)
  | '.' :: rest => parseFixedNat 6 rest
  | cs => some (0, cs)

/-- The optional `±HH:MM` suffix: `none` offset for a naive timestamp,
a signed whole-minute offset otherwise. -/
def parseIsoOffset : List Char → Option (Option Int)
  | [] => some none
  | sign :: rest =>
    if sign = '+' ∨ sign = '-' then
      match parseFixedNat 2 rest with
      | none => none
      | some (oh, cs) =>
      match expectChar ':' cs with
      | none => none
      | some cs =>
      match parseFixedNat 2 cs with
      | none => none
      | some (om, cs) =>
        if cs = [] then
          some (some (if sign = '-' then -((oh * 60 + om : Nat) : Int)
            else ((oh * 60 + om : Nat) : Int)))
        else none
    else none

/-- `datetime.fromisoformat` on the canonical shape `isoformat` emits;
`none` models `ValueError`. -/
def parseIso (cs : List Char) : Option Datetime :=
  match parseIsoDateTime cs with
  | none => none
  | some (y, mo, da, h, mi, s, cs) =>
  match parseIsoFraction cs with
  | none => none
  | some (us, cs) =>
  match parseIsoOffset cs with
  | none => none
  | some off =>
      some { year := y, month := mo, day := da, hour := h, minute := mi,
             second := s, microsecond := us, utcOffsetMinutes := off }

/-! ## Serialisation (`models.py` lines 71-95) and `JsonStorage` -/

/-- The dictionary `CrawlResult.to_dict` builds (`models.py` lines
71-86): exactly the thirteen persisted keys.  There is no `html` key and
no `headers` key. -/
structure ResultDict where
  url : String
  status_code : Nat
  content_type : String
  text : String
  title : String
  links : List String
  metadata : Metadata
  crawled_at : List Char
  depth : Nat
  parent_url : Option String
  elapsed_time : ℚ
  status : String
  error : Option String
deriving DecidableEq

/-- `CrawlResult.to_dict` (`models.py` lines 71-86). -/
def CrawlResult.to_dict (r : CrawlResult) : ResultDict :=
  { url := r.url, status_code := r.status_code,
    content_type := r.content_type, text := r.text, title := r.title,
    links := r.links, metadata := r.metadata,
    crawled_at := r.crawled_at.isoformat, depth := r.depth,
    parent_url := r.parent_url, elapsed_time := r.elapsed_time,
    status := r.status.value, error := r.error }

/-- `CrawlResult.from_dict` (`models.py` lines 88-95): parse the
timestamp and the status value, default `html` to `""` and `headers` to
the empty mapping (`data.setdefault`), and rebuild the dataclass.  `none`
models the `ValueError` of `fromisoformat` / `CrawlStatus(...)` on
malformed input. -/
def CrawlResult.from_dict (d : ResultDict) : Option CrawlResult :=
  match parseIso d.crawled_at, CrawlStatus.ofValue d.status with
  | some dt, some st =>
      some { url := d.url, status_code := d.status_code,
             content_type := d.content_type, html := "", text := d.text,
             title := d.title, links := d.links, metadata := d.metadata,
             crawled_at := dt, depth := d.depth, parent_url := d.parent_url,
             elapsed_time := d.elapsed_time, status := st, error := d.error,
             headers := [] }
  | _, _ => none

/-- The in-memory dictionary of `JsonStorage` (`storage.py` line 50),
keyed by URL.  The JSON file mirrors this dictionary and is never read
back during a run, so the model keeps only the dictionary. -/
structure JsonStorage where
  results : List (String × ResultDict) := []

/-- `JsonStorage.save` (`storage.py` lines 63-65):
`self._results[result.url] = result.to_dict()`. -/
def JsonStorage.save (s : JsonStorage) (r : CrawlResult) : JsonStorage :=
  { results :=
      (r.url, r.to_dict) :: s.results.filter (fun kv => decide (kv.1 ≠ r.url)) }

/-- `JsonStorage.get` (`storage.py` lines 67-69):
`CrawlResult.from_dict(data) if data else None`. -/
def JsonStorage.get (s : JsonStorage) (url : String) : Option CrawlResult :=
  match s.results.lookup url with
  | some d => CrawlResult.from_dict d
  | none => none

end Crawler

namespace Crawler

/-! ## Frontier lemmas -/

/-- The head of a `dropWhile` residue falsifies the predicate. -/
theorem head_dropWhile_false {α : Type} (p : α → Bool) :
    ∀ (l : List α) (x : α) (xs : List α), l.dropWhile p = x :: xs → p x = false := by
  intro l
  induction l with
  | nil => intro x xs h; simp [List.dropWhile] at h
  | cons a l ih =>
      intro x xs h
      by_cases hpa : p a
      · rw [List.dropWhile_cons_of_pos hpa] at h
        exact ih x xs h
      · rw [List.dropWhile_cons_of_neg hpa] at h
        cases h
        exact Bool.of_not_eq_true hpa

/-- `get` never touches the visited set. -/
theorem get_preserves_visited (s : MemoryFrontier) :
    s.get.1.visited = s.visited := by
  unfold MemoryFrontier.get
  cases h : (List.insertionSort keyLE s.queue).dropWhile
      (fun e => decide (e.request.url ∈ s.visited)) <;> simp [h]

/-- `add` never touches the visited set. -/
theorem add_preserves_visited (s : MemoryFrontier) (r : CrawlRequest) :
    (s.add r).1.visited = s.visited := by
  unfold MemoryFrontier.add
  by_cases h : r.url ∈ s.visited ∨ r.url ∈ s.in_queue <;> simp [h]

/-- No frontier operation of a crawl run removes a URL from the visited
set. -/
theorem applyFrontierOp_visited_mono (s : MemoryFrontier) (op : FrontierOp)
    {u : String} (h : u ∈ s.visited) : u ∈ (applyFrontierOp s op).visited := by
  cases op with
  | add r => rw [applyFrontierOp, add_preserves_visited]; exact h
  | get => rw [applyFrontierOp, get_preserves_visited]; exact h
  | markVisited v =>
      simp only [applyFrontierOp, MemoryFrontier.markVisited]
      exact List.mem_insert_iff.mpr (Or.inr h)

/-- Visited URLs stay visited across any sequence of run operations. -/
theorem runFrontierOps_visited_mono (ops : List FrontierOp) :
    ∀ (s : MemoryFrontier) {u : String}, u ∈ s.visited →
      u ∈ (runFrontierOps s ops).visited := by
  induction ops with
  | nil => intro s u h; exact h
  | cons op ops ih =>
      intro s u h
      exact ih (applyFrontierOp s op) (applyFrontierOp_visited_mono s op h)

/-- A request returned by `get` comes from the head of the non-visited
residue of the key-sorted queue. -/
theorem get_some_spec {s s₁ : MemoryFrontier} {r : CrawlRequest}
    (h : s.get = (s₁, some r)) :
    ∃ e₀ rest₂,
      (List.insertionSort keyLE s.queue).dropWhile
          (fun e => decide (e.request.url ∈ s.visited)) = e₀ :: rest₂ ∧
        r = e₀.request := by
  unfold MemoryFrontier.get at h
  cases heq : (List.insertionSort keyLE s.queue).dropWhile
      (fun e => decide (e.request.url ∈ s.visited)) with
  | nil => rw [heq] at h; simp at h
  | cons e₀ rest₂ =>
      rw [heq] at h
      simp at h
      exact ⟨e₀, rest₂, rfl, h.2.symm⟩

/-- The URL handed out by `get` was not visited at the time of the call
(`frontier.py` line 74). -/
theorem get_some_not_visited {s s₁ : MemoryFrontier} {r : CrawlRequest}
    (h : s.get = (s₁, some r)) : r.url ∉ s.visited := by
  obtain ⟨e₀, rest₂, heq, hr⟩ := get_some_spec h
  have := head_dropWhile_false _ _ _ _ heq
  subst hr
  simpa using this

/-- C1.  Once a URL has been popped by `get` and committed by the worker
mark (`worker.py` line 109), it is in the visited set, and no run of
further frontier operations can make `get` return that URL again. -/
theorem C1_popped_url_visited_and_never_returned
    (s s₁ : MemoryFrontier) (r : CrawlRequest)
    (_hGet : s.get = (s₁, some r)) :
    r.url ∈ (s₁.markVisited r.url).visited ∧
      ∀ (ops : List FrontierOp) (s₂ : MemoryFrontier) (r₂ : CrawlRequest),
        (runFrontierOps (s₁.markVisited r.url) ops).get = (s₂, some r₂) →
          r₂.url ≠ r.url := by
  constructor
  · exact List.mem_insert_iff.mpr (Or.inl rfl)
  · intro ops s₂ r₂ hGet₂ hEq
    have hmem : r.url ∈ (s₁.markVisited r.url).visited :=
      List.mem_insert_iff.mpr (Or.inl rfl)
    have hmem₂ : r.url ∈ (runFrontierOps (s₁.markVisited r.url) ops).visited :=
      runFrontierOps_visited_mono ops _ hmem
    have := get_some_not_visited hGet₂
    rw [hEq] at this
    exact this hmem₂

/-- Witness for C1 at the one-request frontier. -/
theorem C1_witness :
    "u" ∈ (((emptyFrontier.add { url := "u" }).1.get.1).markVisited "u").visited ∧
      ∀ (ops : List FrontierOp) (s₂ : MemoryFrontier) (r₂ : CrawlRequest),
        (runFrontierOps (((emptyFrontier.add { url := "u" }).1.get.1).markVisited "u") ops).get
            = (s₂, some r₂) → r₂.url ≠ "u" :=
  C1_popped_url_visited_and_never_returned
    (emptyFrontier.add { url := "u" }).1
    (emptyFrontier.add { url := "u" }).1.get.1
    { url := "u" } (by rfl)

end Crawler

namespace Crawler

/-! ## C4: `add` deduplication and enqueueing -/

/-- C4.  `add(r)` returns false and leaves the state unchanged when the
URL is visited or queued; otherwise it pushes the heap entry, bumps the
counter, records the URL in-queue and returns true; and on a fresh
frontier `add(r); add(r)` returns true then false while the size grows by
exactly one. -/
theorem C4_add_dedup_enqueue (s : MemoryFrontier) (r : CrawlRequest) :
    (r.url ∈ s.visited ∨ r.url ∈ s.in_queue → s.add r = (s, false)) ∧
    (r.url ∉ s.visited ∧ r.url ∉ s.in_queue →
      s.add r =
        ({ s with
            queue := s.queue ++ [⟨-r.priority, s.counter, r⟩],
            counter := s.counter + 1,
            in_queue := r.url :: s.in_queue }, true)) ∧
    (emptyFrontier.add r).2 = true ∧
    ((emptyFrontier.add r).1.add r).2 = false ∧
    (emptyFrontier.add r).1.size = emptyFrontier.size + 1 ∧
    ((emptyFrontier.add r).1.add r).1.size = emptyFrontier.size + 1 := by
  refine ⟨?_, ?_, ?_, ?_, ?_, ?_⟩
  · intro h
    rw [MemoryFrontier.add, if_pos h]
  · intro h
    rw [MemoryFrontier.add, if_neg (by simp [h.1, h.2])]
  · simp [MemoryFrontier.add, emptyFrontier]
  · simp [MemoryFrontier.add, emptyFrontier]
  · simp [MemoryFrontier.add, emptyFrontier, MemoryFrontier.size]
  · simp [MemoryFrontier.add, emptyFrontier, MemoryFrontier.size]

/-- Witness for C4: both deduplication branches at concrete frontiers. -/
theorem C4_witness :
    ((emptyFrontier.markVisited "v").add { url := "v" }
        = (emptyFrontier.markVisited "v", false)) ∧
    (emptyFrontier.add { url := "w" }
        = ({ queue := [⟨0, 0, { url := "w" }⟩], counter := 1, visited := [],
             in_queue := ["w"] }, true)) := by
  constructor
  · exact (C4_add_dedup_enqueue (emptyFrontier.markVisited "v") { url := "v" }).1
      (Or.inl (by decide))
  · have h := (C4_add_dedup_enqueue emptyFrontier { url := "w" }).2.1
      ⟨by decide, by decide⟩
    simpa [emptyFrontier] using h

/-! ## C5: `get` returns the highest-priority, earliest-inserted request -/

/-- C5.  First part: whenever `get` hands out a request, some queue entry
carries it, and every entry whose URL is not yet visited has a strictly
smaller priority or an equal priority and a later (or equal) insertion
counter.  Second part: the concrete priority scenario — inserting
priorities 1, 10, 5 into an empty frontier makes three `get` calls yield
priorities 10, 5, 1. -/
theorem C5_get_priority_order :
    (∀ (s s₁ : MemoryFrontier) (r : CrawlRequest), FrontierWF s →
      s.get = (s₁, some r) →
      ∃ c : Nat, (⟨-r.priority, c, r⟩ : QueueEntry) ∈ s.queue ∧
        ∀ e ∈ s.queue, e.request.url ∉ s.visited →
          e.request.priority < r.priority ∨
            (e.request.priority = r.priority ∧ c ≤ e.counter)) ∧
    ((((((emptyFrontier.add { url := "a", priority := 1 }).1.add
          { url := "b", priority := 10 }).1.add
          { url := "c", priority := 5 }).1.get.2).map CrawlRequest.priority
        = some 10) ∧
      (((((emptyFrontier.add { url := "a", priority := 1 }).1.add
          { url := "b", priority := 10 }).1.add
          { url := "c", priority := 5 }).1.get.1.get.2).map CrawlRequest.priority
        = some 5) ∧
      (((((emptyFrontier.add { url := "a", priority := 1 }).1.add
          { url := "b", priority := 10 }).1.add
          { url := "c", priority := 5 }).1.get.1.get.1.get.2).map CrawlRequest.priority
        = some 1)) := by
  constructor
  · intro s s₁ r hWF hGet
    obtain ⟨e₀, rest₂, heq, hr⟩ := get_some_spec hGet
    have hsorted : List.Sorted keyLE (List.insertionSort keyLE s.queue) :=
      List.sorted_insertionSort keyLE s.queue
    have hperm : List.Perm (List.insertionSort keyLE s.queue) s.queue :=
      List.perm_insertionSort keyLE s.queue
    have he₀drop : e₀ ∈ (List.insertionSort keyLE s.queue).dropWhile
        (fun e => decide (e.request.url ∈ s.visited)) := by
      rw [heq]; exact List.mem_cons_self _ _
    have he₀sorted : e₀ ∈ List.insertionSort keyLE s.queue :=
      (List.dropWhile_sublist _).subset he₀drop
    have he₀mem : e₀ ∈ s.queue := hperm.mem_iff.mp he₀sorted
    have hn0 : e₀.negPriority = -e₀.request.priority := hWF e₀ he₀mem
    refine ⟨e₀.counter, ?_, ?_⟩
    · have : (⟨-r.priority, e₀.counter, r⟩ : QueueEntry) = e₀ := by
        cases e₀
        simp only at hn0 hr
        simp [hr, hn0]
      rw [this]; exact he₀mem
    · intro e he henv
      have hesorted : e ∈ List.insertionSort keyLE s.queue := hperm.mem_iff.mpr he
      have hsplit : (List.insertionSort keyLE s.queue).takeWhile
            (fun e => decide (e.request.url ∈ s.visited)) ++
          (List.insertionSort keyLE s.queue).dropWhile
            (fun e => decide (e.request.url ∈ s.visited)) =
          List.insertionSort keyLE s.queue := by
        rw [List.takeWhile_append_dropWhile]
      rw [← hsplit] at hesorted
      rcases List.mem_append.mp hesorted with htake | hdrop
      · exact absurd (by simpa using List.mem_takeWhile_imp htake) henv
      · rw [heq] at hdrop
        have hne : e.negPriority = -e.request.priority := hWF e he
        rcases List.mem_cons.mp hdrop with he₀eq | hrest
        · subst he₀eq
          right
          exact ⟨by rw [hr], le_refl _⟩
        · have hpairs : List.Sorted keyLE
              ((List.insertionSort keyLE s.queue).dropWhile
                (fun e => decide (e.request.url ∈ s.visited))) :=
            List.Pairwise.sublist (List.dropWhile_sublist _) hsorted
          rw [heq] at hpairs
          have hkey : keyLE e₀ e := List.rel_of_sorted_cons hpairs e hrest
          rw [keyLE] at hkey
          rw [hr]
          rcases hkey with hlt | ⟨heqp, hc⟩
          · left; omega
          · right; exact ⟨by omega, hc⟩
  · refine ⟨by decide, by decide, by decide⟩

/-- Witness for C5 at the concrete 1, 10, 5 scenario frontier. -/
theorem C5_witness :
    ∃ c : Nat,
      (⟨-(10 : Int), c,
          { url := "b", priority := 10 }⟩ : QueueEntry) ∈
        ((((emptyFrontier.add { url := "a", priority := 1 }).1.add
            { url := "b", priority := 10 }).1.add
            { url := "c", priority := 5 }).1).queue ∧
      ∀ e ∈ ((((emptyFrontier.add { url := "a", priority := 1 }).1.add
            { url := "b", priority := 10 }).1.add
            { url := "c", priority := 5 }).1).queue,
        e.request.url ∉ ((((emptyFrontier.add { url := "a", priority := 1 }).1.add
            { url := "b", priority := 10 }).1.add
            { url := "c", priority := 5 }).1).visited →
          e.request.priority < 10 ∨
            (e.request.priority = 10 ∧ c ≤ e.counter) :=
  C5_get_priority_order.1
    (((emptyFrontier.add { url := "a", priority := 1 }).1.add
        { url := "b", priority := 10 }).1.add
        { url := "c", priority := 5 }).1
    ((((emptyFrontier.add { url := "a", priority := 1 }).1.add
        { url := "b", priority := 10 }).1.add
        { url := "c", priority := 5 }).1.get.1)
    { url := "b", priority := 10 }
    (by unfold FrontierWF; decide) (by decide)

/-! ## C3: child requests -/

/-- Counterexample to C3 as stated.  At the depth-0, max-depth-2 parent,
the enqueued child has priority `1 = max_depth - parent.depth - 1`, while
the claim formula `max_depth - depth - 1` computed on the child depth
gives `0`; and a fresh frontier happily accepts (returns true for) a
request whose depth exceeds its max depth, because `add` performs no
depth check. -/
theorem C3_counterexample :
    ((childRequests { url := "http://s/", depth := 0, max_depth := 2 }
        ["http://s/a"]).map CrawlRequest.priority = [1]) ∧
    ¬ ((makeChildRequest { url := "http://s/", depth := 0, max_depth := 2 }
          "http://s/a").priority =
        (2 : Int) -
          ((makeChildRequest { url := "http://s/", depth := 0, max_depth := 2 }
              "http://s/a").depth : Int) - 1) ∧
    (emptyFrontier.add { url := "x", depth := 5, max_depth := 1 }).2 = true ∧
    ({ url := "x", depth := 5, max_depth := 1 } : CrawlRequest).depth >
      ({ url := "x", depth := 5, max_depth := 1 } : CrawlRequest).max_depth := by
  refine ⟨by decide, by decide, by decide, by decide⟩

/-- C3 amended.  Every child request a worker enqueues has depth
`parent.depth + 1`, the parent max depth, the parent URL, and priority
`max_depth - parent.depth - 1` (equivalently `max_depth - depth` for the
child depth); children are only built when `parent.depth < max_depth`, so
an enqueued child never exceeds its max depth — the frontier itself
checks no depths. -/
theorem C3_child_request_fields (request : CrawlRequest) (links : List String)
    (c : CrawlRequest) (hc : c ∈ childRequests request links) :
    c.depth = request.depth + 1 ∧
    c.max_depth = request.max_depth ∧
    c.parent_url = some request.url ∧
    c.priority = (request.max_depth : Int) - request.depth - 1 ∧
    c.priority = (c.max_depth : Int) - c.depth ∧
    c.depth ≤ c.max_depth := by
  unfold childRequests at hc
  by_cases h : request.depth < request.max_depth
  · rw [if_pos h] at hc
    obtain ⟨link, _, rfl⟩ := List.mem_map.mp hc
    refine ⟨rfl, rfl, rfl, rfl, ?_, ?_⟩
    · simp only [makeChildRequest]
      push_cast
      ring
    · simp only [makeChildRequest]
      omega
  · rw [if_neg h] at hc
    simp at hc

/-- Witness for C3 at a concrete parent and link. -/
theorem C3_witness :
    (makeChildRequest { url := "http://s/", depth := 0, max_depth := 2 }
        "http://s/a").depth = 0 + 1 ∧
    (makeChildRequest { url := "http://s/", depth := 0, max_depth := 2 }
        "http://s/a").max_depth = 2 ∧
    (makeChildRequest { url := "http://s/", depth := 0, max_depth := 2 }
        "http://s/a").parent_url = some "http://s/" ∧
    (makeChildRequest { url := "http://s/", depth := 0, max_depth := 2 }
        "http://s/a").priority = (2 : Int) - 0 - 1 ∧
    (makeChildRequest { url := "http://s/", depth := 0, max_depth := 2 }
        "http://s/a").priority =
      ((makeChildRequest { url := "http://s/", depth := 0, max_depth := 2 }
          "http://s/a").max_depth : Int) -
        (makeChildRequest { url := "http://s/", depth := 0, max_depth := 2 }
          "http://s/a").depth ∧
    (makeChildRequest { url := "http://s/", depth := 0, max_depth := 2 }
        "http://s/a").depth ≤
      (makeChildRequest { url := "http://s/", depth := 0, max_depth := 2 }
        "http://s/a").max_depth :=
  C3_child_request_fields { url := "http://s/", depth := 0, max_depth := 2 }
    ["http://s/a"]
    (makeChildRequest { url := "http://s/", depth := 0, max_depth := 2 }
      "http://s/a")
    (by decide)

end Crawler

namespace Crawler

/-! ## C2: the page-count budget -/

/-- Invariant of the worker pool: the crawled counter plus the number of
workers past the budget check stays below `maxPages + numWorkers`.  A
worker only passes the check while `crawled < maxPages` (`worker.py` line
74), and each commit moves one active worker onto exactly one counter. -/
theorem pool_crawled_active_bound (m n : Nat) (hn : 1 ≤ n) (s : PoolState)
    (h : PoolReachable m n s) :
    s.stats.total_pages_crawled + s.active < m + n := by
  induction h with
  | refl => simp only [initPoolState]; omega
  | tail _ hstep ih =>
      cases hstep with
      | beginWork hb hi => simp only; omega
      | commit o ha =>
          cases o <;> simp only [applyOutcome] <;> omega

/-- Counterexample to C2 as stated.  With one worker and a budget of one
page, two robots-disallowed URLs drive the skipped counter to 2: the
worker passes the budget check (crawled = 0 < 1) twice, each time bumping
only `total_pages_skipped` (`worker.py` line 99), so the counter sum
reaches 2 > max_pages + (num_workers - 1) = 1.  Only the crawled counter
is budget-checked. -/
theorem C2_counterexample :
    PoolReachable 1 1 { stats := { total_pages_skipped := 2 }, active := 0 } ∧
      pagesTotal { total_pages_skipped := 2 } > 1 + (1 - 1) := by
  constructor
  · have t0 : PoolReachable 1 1 initPoolState := Relation.ReflTransGen.refl
    have t1 : PoolReachable 1 1 { stats := {}, active := 1 } :=
      t0.tail (PoolStep.beginWork initPoolState (by decide) (by decide))
    have t2 : PoolReachable 1 1
        { stats := { total_pages_skipped := 1 }, active := 0 } :=
      t1.tail (PoolStep.commit { stats := {}, active := 1 }
        WorkerOutcome.skippedPage (by decide))
    have t3 : PoolReachable 1 1
        { stats := { total_pages_skipped := 1 }, active := 1 } :=
      t2.tail (PoolStep.beginWork
        { stats := { total_pages_skipped := 1 }, active := 0 }
        (by decide) (by decide))
    exact t3.tail (PoolStep.commit
      { stats := { total_pages_skipped := 1 }, active := 1 }
      WorkerOutcome.skippedPage (by decide))
  · decide

/-- C2 amended.  At every reachable point of a run with `numWorkers ≥ 1`
workers and budget `maxPages`, the crawled counter alone is at most
`maxPages + (numWorkers - 1)`; the failed and skipped counters are not
bounded by the budget. -/
theorem C2_crawled_within_budget_margin (m n : Nat) (hn : 1 ≤ n)
    (s : PoolState) (h : PoolReachable m n s) :
    s.stats.total_pages_crawled ≤ m + (n - 1) := by
  have := pool_crawled_active_bound m n hn s h
  omega

/-- Witness for the amended C2 at the initial state of a one-worker,
one-page run. -/
theorem C2_witness :
    initPoolState.stats.total_pages_crawled ≤ 1 + (1 - 1) :=
  C2_crawled_within_budget_margin 1 1 (by decide) initPoolState
    Relation.ReflTransGen.refl

end Crawler

namespace Crawler

/-! ## C7: retry semantics of the static fetcher -/

/-- Unfolding of one successful loop iteration: a response ends the loop
immediately, with one attempt consumed and no delay slept. -/
theorem fetchAux_response_step (f : StaticFetcher) (oracle : Nat → AttemptOutcome)
    (request : CrawlRequest) (attempt rem : Nat) (lastError : Option String)
    (resp : HttpResponse) (h : oracle attempt = .response resp) :
    fetchAux f oracle request attempt (rem + 1) lastError =
      (some (doFetchResult request resp), lastError, 1, []) := by
  simp [fetchAux, h]

/-- Unfolding of one failing loop iteration: the error message is
recorded, a back-off delay of `retry_delay * 2 ^ attempt` is slept unless
this was the final attempt, and the loop continues. -/
theorem fetchAux_error_step (f : StaticFetcher) (oracle : Nat → AttemptOutcome)
    (request : CrawlRequest) (attempt rem : Nat) (lastError : Option String)
    (hout : ∀ r, oracle attempt ≠ .response r) :
    fetchAux f oracle request attempt (rem + 1) lastError =
      ((fetchAux f oracle request (attempt + 1) rem
          (some (errorMessage (oracle attempt)))).1,
        (fetchAux f oracle request (attempt + 1) rem
          (some (errorMessage (oracle attempt)))).2.1,
        (fetchAux f oracle request (attempt + 1) rem
          (some (errorMessage (oracle attempt)))).2.2.1 + 1,
        (if attempt < f.max_retries then [f.retry_delay * 2 ^ attempt] else []) ++
          (fetchAux f oracle request (attempt + 1) rem
            (some (errorMessage (oracle attempt)))).2.2.2) := by
  cases h : oracle attempt with
  | response r => exact absurd h (hout r)
  | timedOut => simp [fetchAux, h, errorMessage]
  | clientError m => simp [fetchAux, h, errorMessage]
  | genericError m => simp [fetchAux, h, errorMessage]

/-- The loop makes at most `remaining` attempts. -/
theorem fetchAux_attempts_le (f : StaticFetcher) (oracle : Nat → AttemptOutcome)
    (request : CrawlRequest) :
    ∀ (remaining attempt : Nat) (lastError : Option String),
      (fetchAux f oracle request attempt remaining lastError).2.2.1 ≤ remaining := by
  intro remaining
  induction remaining with
  | zero => intro attempt lastError; simp [fetchAux]
  | succ rem ih =>
      intro attempt lastError
      by_cases hresp : ∃ resp, oracle attempt = .response resp
      · obtain ⟨resp, h⟩ := hresp
        rw [fetchAux_response_step f oracle request attempt rem lastError resp h]
        simp
      · rw [fetchAux_error_step f oracle request attempt rem lastError
          (fun r hr => hresp ⟨r, hr⟩)]
        exact Nat.add_le_add_right (ih (attempt + 1) _) 1

/-- When the first response arrives on attempt `attempt + i`, the loop
returns its `_do_fetch` result after exactly `i + 1` attempts, having
slept `retry_delay * 2 ^ a` after each failed attempt `a`. -/
theorem fetchAux_first_response (f : StaticFetcher) (oracle : Nat → AttemptOutcome)
    (request : CrawlRequest) :
    ∀ (i attempt remaining : Nat) (lastError : Option String) (resp : HttpResponse),
      i < remaining →
      attempt + i ≤ f.max_retries →
      oracle (attempt + i) = .response resp →
      (∀ j, j < i → ∀ r, oracle (attempt + j) ≠ .response r) →
      (fetchAux f oracle request attempt remaining lastError).1
          = some (doFetchResult request resp) ∧
        (fetchAux f oracle request attempt remaining lastError).2.2.1 = i + 1 ∧
        (fetchAux f oracle request attempt remaining lastError).2.2.2
          = (List.range i).map (fun j => f.retry_delay * 2 ^ (attempt + j)) := by
  intro i
  induction i with
  | zero =>
      intro attempt remaining lastError resp hlt _hle hresp _hprev
      cases remaining with
      | zero => omega
      | succ rem =>
          rw [Nat.add_zero] at hresp
          rw [fetchAux_response_step f oracle request attempt rem lastError resp hresp]
          simp
  | succ i ih =>
      intro attempt remaining lastError resp hlt hle hresp hprev
      cases remaining with
      | zero => omega
      | succ rem =>
          have h0 : ∀ r, oracle attempt ≠ .response r := by
            intro r hr
            exact hprev 0 (Nat.succ_pos i) r (by rwa [Nat.add_zero])
          rw [fetchAux_error_step f oracle request attempt rem lastError h0]
          have hrec := ih (attempt + 1) rem (some (errorMessage (oracle attempt)))
            resp (by omega) (by omega)
            (by rw [show attempt + 1 + i = attempt + (i + 1) by omega]; exact hresp)
            (fun j hj r hr => hprev (j + 1) (by omega) r
              (by rw [show attempt + (j + 1) = attempt + 1 + j by omega]; exact hr))
          refine ⟨hrec.1, by rw [hrec.2.1], ?_⟩
          have hcond : attempt < f.max_retries := by omega
          rw [if_pos hcond, hrec.2.2]
          rw [List.range_succ_eq_map, List.map_cons, List.map_map]
          simp only [List.cons_append, List.nil_append, Nat.add_zero]
          congr 1
          apply List.map_congr_left
          intro j _
          simp only [Function.comp]
          congr 2
          omega

/-- When every attempt fails, the loop exhausts all `remaining` attempts,
keeps the error of the last one, and sleeps a back-off delay after every
attempt but the final one. -/
theorem fetchAux_all_fail (f : StaticFetcher) (oracle : Nat → AttemptOutcome)
    (request : CrawlRequest) :
    ∀ (remaining attempt : Nat) (lastError : Option String),
      attempt + remaining = f.max_retries + 1 →
      (∀ j, j < remaining → ∀ r, oracle (attempt + j) ≠ .response r) →
      (fetchAux f oracle request attempt remaining lastError).1 = none ∧
        (fetchAux f oracle request attempt remaining lastError).2.1 =
          (if remaining = 0 then lastError
            else some (errorMessage (oracle f.max_retries))) ∧
        (fetchAux f oracle request attempt remaining lastError).2.2.1 = remaining ∧
        (fetchAux f oracle request attempt remaining lastError).2.2.2 =
          (List.range (remaining - 1)).map
            (fun j => f.retry_delay * 2 ^ (attempt + j)) := by
  intro remaining
  induction remaining with
  | zero =>
      intro attempt lastError _htot _hall
      simp [fetchAux]
  | succ rem ih =>
      intro attempt lastError htot hall
      have h0 : ∀ r, oracle attempt ≠ .response r := by
        intro r hr
        exact hall 0 (Nat.succ_pos rem) r (by rwa [Nat.add_zero])
      rw [fetchAux_error_step f oracle request attempt rem lastError h0]
      have hrec := ih (attempt + 1) (some (errorMessage (oracle attempt)))
        (by omega)
        (fun j hj r hr => hall (j + 1) (by omega) r
          (by rw [show attempt + (j + 1) = attempt + 1 + j by omega]; exact hr))
      refine ⟨hrec.1, ?_, by rw [hrec.2.2.1], ?_⟩
      · rw [hrec.2.1]
        by_cases hr0 : rem = 0
        · subst hr0
          have : attempt = f.max_retries := by omega
          simp [this]
        · simp [hr0]
      · rw [hrec.2.2.2]
        cases rem with
        | zero =>
            have : ¬ attempt < f.max_retries := by omega
            simp [this]
        | succ r =>
            have hcond : attempt < f.max_retries := by omega
            rw [if_pos hcond]
            simp only [Nat.add_sub_cancel, Nat.succ_sub_one]
            rw [List.range_succ_eq_map, List.map_cons, List.map_map]
            simp only [List.cons_append, List.nil_append, Nat.add_zero]
            congr 1
            apply List.map_congr_left
            intro j _
            simp only [Function.comp]
            congr 2
            omega

/-- The attempt count and delay list of `fetch` are those of the loop. -/
theorem fetch_count_delays (f : StaticFetcher) (oracle : Nat → AttemptOutcome)
    (request : CrawlRequest) :
    (f.fetch oracle request).2.1 =
        (fetchAux f oracle request 0 (f.max_retries + 1) none).2.2.1 ∧
      (f.fetch oracle request).2.2 =
        (fetchAux f oracle request 0 (f.max_retries + 1) none).2.2.2 := by
  unfold StaticFetcher.fetch
  cases h : (fetchAux f oracle request 0 (f.max_retries + 1) none).1 <;> simp [h]

/-- C7.  The static fetcher makes at most `max_retries + 1` attempts; a
normal HTTP response on attempt `i` (after `i` failures) ends the loop at
once with the `_do_fetch` result, after back-off delays
`retry_delay * 2 ^ 0, …, retry_delay * 2 ^ (i-1)`; an HTML-typed
response — whatever its status code, 4xx/5xx included — becomes a
`completed` result carrying that status code; and when every attempt
fails the result is a `failed` result carrying the last error message,
after `max_retries + 1` attempts and delays `retry_delay * 2 ^ i` for
`i < max_retries`. -/
theorem C7_fetch_retry_semantics (f : StaticFetcher)
    (oracle : Nat → AttemptOutcome) (request : CrawlRequest) :
    ((f.fetch oracle request).2.1 ≤ f.max_retries + 1) ∧
    (∀ (i : Nat) (resp : HttpResponse),
      i ≤ f.max_retries →
      oracle i = .response resp →
      (∀ j, j < i → ∀ r, oracle j ≠ .response r) →
      f.fetch oracle request =
        (doFetchResult request resp, i + 1,
          (List.range i).map (fun j => f.retry_delay * 2 ^ j))) ∧
    (∀ resp : HttpResponse, isHtmlLike resp.content_type →
      (doFetchResult request resp).status = .completed ∧
        (doFetchResult request resp).status_code = resp.status) ∧
    ((∀ j, j ≤ f.max_retries → ∀ r, oracle j ≠ .response r) →
      (f.fetch oracle request).1.status = .failed ∧
        (f.fetch oracle request).1.error =
          some (errorMessage (oracle f.max_retries)) ∧
        (f.fetch oracle request).2.1 = f.max_retries + 1 ∧
        (f.fetch oracle request).2.2 =
          (List.range f.max_retries).map
            (fun j => f.retry_delay * 2 ^ j)) := by
  refine ⟨?_, ?_, ?_, ?_⟩
  · rw [(fetch_count_delays f oracle request).1]
    exact fetchAux_attempts_le f oracle request (f.max_retries + 1) 0 none
  · intro i resp hle hresp hprev
    have h := fetchAux_first_response f oracle request i 0 (f.max_retries + 1)
      none resp (by omega) (by omega) (by rwa [Nat.zero_add]) (by
        intro j hj r hr
        exact hprev j hj r (by rwa [Nat.zero_add] at hr))
    unfold StaticFetcher.fetch
    rw [h.1]
    rw [h.2.1, h.2.2]
    simp only [Nat.zero_add]
  · intro resp h
    have hcond : ¬ ¬ isHtmlLike resp.content_type := not_not.mpr h
    constructor <;> simp [doFetchResult, hcond]
  · intro hall
    have h := fetchAux_all_fail f oracle request (f.max_retries + 1) 0 none
      (by omega) (by
        intro j hj r hr
        exact hall j (by omega) r (by rwa [Nat.zero_add] at hr))
    have hcd := fetch_count_delays f oracle request
    refine ⟨?_, ?_, ?_, ?_⟩
    · unfold StaticFetcher.fetch
      rw [h.1]
    · unfold StaticFetcher.fetch
      rw [h.1]
      simp only
      rw [h.2.1]
      simp
    · rw [hcd.1, h.2.2.1]
    · rw [hcd.2, h.2.2.2]
      simp only [Nat.add_sub_cancel, Nat.zero_add]

end Crawler

namespace Crawler

/-- Witness for C7: two transport failures followed by an HTML 404
response give a completed result with status 404 after three attempts and
delays 1, 2. -/
theorem C7_witness :
    (StaticFetcher.fetch { max_retries := 2, retry_delay := 1 }
        (fun n => if n = 0 then AttemptOutcome.clientError "connection reset"
          else if n = 1 then AttemptOutcome.timedOut
          else AttemptOutcome.response
            { url := "http://s/x", status := 404, content_type := "text/html",
              body := "<p>gone</p>", headers := [], elapsed := 0 })
        { url := "http://s/x" }
      = (doFetchResult { url := "http://s/x" }
            { url := "http://s/x", status := 404, content_type := "text/html",
              body := "<p>gone</p>", headers := [], elapsed := 0 },
          2 + 1, (List.range 2).map (fun j => (1 : ℚ) * 2 ^ j))) ∧
    (doFetchResult { url := "http://s/x" }
        { url := "http://s/x", status := 404, content_type := "text/html",
          body := "<p>gone</p>", headers := [], elapsed := 0 }).status
      = CrawlStatus.completed ∧
    (doFetchResult { url := "http://s/x" }
        { url := "http://s/x", status := 404, content_type := "text/html",
          body := "<p>gone</p>", headers := [], elapsed := 0 }).status_code
      = 404 := by
  refine ⟨?_, ?_⟩
  · exact (C7_fetch_retry_semantics { max_retries := 2, retry_delay := 1 }
      (fun n => if n = 0 then AttemptOutcome.clientError "connection reset"
        else if n = 1 then AttemptOutcome.timedOut
        else AttemptOutcome.response
          { url := "http://s/x", status := 404, content_type := "text/html",
            body := "<p>gone</p>", headers := [], elapsed := 0 })
      { url := "http://s/x" }).2.1 2
      { url := "http://s/x", status := 404, content_type := "text/html",
        body := "<p>gone</p>", headers := [], elapsed := 0 }
      (by decide) rfl
      (by intro j hj r hr; interval_cases j <;> simp at hr)
  · exact (C7_fetch_retry_semantics { max_retries := 2, retry_delay := 1 }
      (fun n => if n = 0 then AttemptOutcome.clientError "connection reset"
        else if n = 1 then AttemptOutcome.timedOut
        else AttemptOutcome.response
          { url := "http://s/x", status := 404, content_type := "text/html",
            body := "<p>gone</p>", headers := [], elapsed := 0 })
      { url := "http://s/x" }).2.2.1
      { url := "http://s/x", status := 404, content_type := "text/html",
        body := "<p>gone</p>", headers := [], elapsed := 0 }
      (by decide)

end Crawler

namespace Crawler

/-! ## C8: title extraction -/

/-- Counterexample to C8 as stated.  On a document whose single
`<title>` holds a whitespace-only string and whose first `<h1>` reads
"Head", the code returns `""` — `title_tag.string` is truthy, so the
stripped (empty) string is returned and the `<h1>` fallback is never
reached — while the spec rule gives "Head". -/
theorem C8_counterexample :
    extractTitle { titleStrings := [some " "], h1Texts := ["Head"] } = "" ∧
    specTitle { titleStrings := [some " "], h1Texts := ["Head"] } = "Head" ∧
    extractTitle { titleStrings := [some " "], h1Texts := ["Head"] } ≠
      specTitle { titleStrings := [some " "], h1Texts := ["Head"] } := by
  refine ⟨by decide, by decide, by decide⟩

/-- C8 amended.  For every document with at most one `<title>` tag whose
string, when present and non-empty, is not whitespace-only, the parser
title is the first non-empty `<title>` text, falling back to the first
`<h1>` text when that is empty or absent, and `""` only when both are
absent or empty. -/
theorem C8_title_first_nonempty_else_h1 (doc : SoupDoc)
    (hOne : doc.titleStrings.length ≤ 1)
    (hWs : ∀ s, doc.titleStrings.head? = some (some s) → s ≠ "" → pyStrip s ≠ "") :
    extractTitle doc = specTitle doc := by
  obtain ⟨titles, h1s⟩ := doc
  cases titles with
  | nil => simp [extractTitle, specTitle]
  | cons t rest =>
      cases rest with
      | cons t₂ r₂ => simp at hOne
      | nil =>
          cases t with
          | none => simp [extractTitle, specTitle]
          | some s =>
              by_cases hs : s = ""
              · subst hs
                have h0 : pyStrip "" = "" := by decide
                simp [extractTitle, specTitle, h0]
              · have htrim : pyStrip s ≠ "" := hWs s (by simp) hs
                simp [extractTitle, specTitle, hs, htrim]

/-- Witness for the amended C8 at a one-title document. -/
theorem C8_witness :
    extractTitle { titleStrings := [some "T"], h1Texts := ["H"] } =
      specTitle { titleStrings := [some "T"], h1Texts := ["H"] } :=
  C8_title_first_nonempty_else_h1 { titleStrings := [some "T"], h1Texts := ["H"] }
    (by decide)
    (by intro s hs hne; simp at hs; subst hs; decide)

end Crawler

namespace Crawler

/-! ## C9 and C10: serialisation round trip and the JSON storage -/

/-- A digit character has the expected code point. -/
theorem digitChar_toNat (n : Nat) : (digitChar n).toNat = 48 + n % 10 := by
  unfold digitChar
  have h : n % 10 < 10 := Nat.mod_lt _ (by norm_num)
  generalize hk : n % 10 = k at *
  interval_cases k <;> decide

/-- A digit character passes the digit test. -/
theorem digitChar_isDigit (n : Nat) :
    UrlModel.isAsciiDigit (digitChar n) = true := by
  unfold digitChar
  have h : n % 10 < 10 := Nat.mod_lt _ (by norm_num)
  generalize hk : n % 10 = k at *
  interval_cases k <;> decide

/-- `natDigits` renders exactly `w` characters. -/
theorem natDigits_length (w : Nat) : ∀ n, (natDigits w n).length = w := by
  induction w with
  | zero => intro n; rfl
  | succ w ih => intro n; simp [natDigits, ih]

/-- Every character `natDigits` renders is a digit. -/
theorem natDigits_all_digits (w : Nat) :
    ∀ n, (natDigits w n).all UrlModel.isAsciiDigit = true := by
  induction w with
  | zero => intro n; rfl
  | succ w ih =>
      intro n
      simp [natDigits, List.all_append, ih, digitChar_isDigit]

/-- Reading one more trailing digit. -/
theorem digitsToNat_append_digit (xs : List Char) (c : Char) :
    digitsToNat (xs ++ [c]) = digitsToNat xs * 10 + (c.toNat - 48) := by
  simp [digitsToNat, List.foldl_append]

/-- Reading back a fixed-width rendering recovers the value. -/
theorem digitsToNat_natDigits (w : Nat) :
    ∀ n, n < 10 ^ w → digitsToNat (natDigits w n) = n := by
  induction w with
  | zero =>
      intro n h
      simp [pow_zero] at h
      simp [natDigits, digitsToNat, h]
  | succ w ih =>
      intro n h
      have hdiv : n / 10 < 10 ^ w := by
        rw [Nat.div_lt_iff_lt_mul (by norm_num)]
        calc n < 10 ^ (w + 1) := h
        _ = 10 ^ w * 10 := by ring
      rw [natDigits, digitsToNat_append_digit, ih _ hdiv, digitChar_toNat]
      omega

/-- The fixed-width parser inverts the fixed-width renderer. -/
theorem parseFixedNat_natDigits (w n : Nat) (h : n < 10 ^ w) (rest : List Char) :
    parseFixedNat w (natDigits w n ++ rest) = some (n, rest) := by
  unfold parseFixedNat
  have hlen : (natDigits w n).length = w := natDigits_length w n
  have htake : (natDigits w n ++ rest).take w = natDigits w n := by
    have h₀ := List.take_left (natDigits w n) rest
    rwa [hlen] at h₀
  have hdrop : (natDigits w n ++ rest).drop w = rest := by
    have h₀ := List.drop_left (natDigits w n) rest
    rwa [hlen] at h₀
  rw [htake, hdrop]
  rw [if_pos ⟨hlen, natDigits_all_digits w n⟩]
  rw [digitsToNat_natDigits w n h]

/-- `expectChar` consumes the character it was asked for. -/
theorem expectChar_cons (c : Char) (rest : List Char) :
    expectChar c (c :: rest) = some rest := by
  simp [expectChar]

/-- The date-time parser inverts the date-time rendering. -/
theorem parseIsoDateTime_build (y mo da h mi s : Nat)
    (hy : y < 10000) (hmo : mo < 100) (hda : da < 100)
    (hh : h < 100) (hmi : mi < 100) (hs : s < 100) (rest : List Char) :
    parseIsoDateTime
        (natDigits 4 y ++ '-' :: (natDigits 2 mo ++ '-' :: (natDigits 2 da ++
          'T' :: (natDigits 2 h ++ ':' :: (natDigits 2 mi ++
          ':' :: (natDigits 2 s ++ rest)))))) =
      some (y, mo, da, h, mi, s, rest) := by
  have e1 := parseFixedNat_natDigits 4 y (lt_of_lt_of_le hy (by norm_num))
  have e2 := parseFixedNat_natDigits 2 mo (lt_of_lt_of_le hmo (by norm_num))
  have e3 := parseFixedNat_natDigits 2 da (lt_of_lt_of_le hda (by norm_num))
  have e4 := parseFixedNat_natDigits 2 h (lt_of_lt_of_le hh (by norm_num))
  have e5 := parseFixedNat_natDigits 2 mi (lt_of_lt_of_le hmi (by norm_num))
  have e6 := parseFixedNat_natDigits 2 s (lt_of_lt_of_le hs (by norm_num))
  simp only [parseIsoDateTime, e1, e2, e3, e4, e5, e6, expectChar_cons]

/-- The offset parser inverts the offset rendering. -/
theorem parseIsoOffset_build (sign : Char) (a : Nat) (ha : a < 6000)
    (hsign : sign = '+' ∨ sign = '-') :
    parseIsoOffset (sign :: (natDigits 2 (a / 60) ++ ':' :: natDigits 2 (a % 60)))
      = some (some (if sign = '-' then -(a : Int) else (a : Int))) := by
  have hdiv : a / 60 < 100 := by omega
  have hmod : a % 60 < 100 := by omega
  have e8 := parseFixedNat_natDigits 2 (a / 60)
    (lt_of_lt_of_le hdiv (by norm_num))
  have e9 := parseFixedNat_natDigits 2 (a % 60)
    (lt_of_lt_of_le hmod (by norm_num))
  have e9n := e9 []
  rw [List.append_nil] at e9n
  have hval : ((a / 60) * 60 + a % 60 : Nat) = a := by omega
  simp only [parseIsoOffset, if_pos hsign, e8, e9n, expectChar_cons, hval,
    if_true, if_pos rfl]

theorem parseIsoFraction_nil : parseIsoFraction [] = some (0, []) := rfl

theorem parseIsoFraction_dot (cs : List Char) :
    parseIsoFraction ('.' :: cs) = parseFixedNat 6 cs := rfl

theorem parseIsoFraction_dash (cs : List Char) :
    parseIsoFraction ('-' :: cs) = some (0, '-' :: cs) := rfl

theorem parseIsoFraction_plus (cs : List Char) :
    parseIsoFraction ('+' :: cs) = some (0, '+' :: cs) := rfl

/-- `fromisoformat` inverts `isoformat` on every datetime whose fields
are in the ranges the `datetime` class maintains. -/
theorem parseIso_isoformat (d : Datetime)
    (hy : d.year < 10000) (hmo : d.month < 100) (hda : d.day < 100)
    (hh : d.hour < 100) (hmi : d.minute < 100) (hs : d.second < 100)
    (hus : d.microsecond < 1000000)
    (hoff : ∀ m, d.utcOffsetMinutes = some m → m.natAbs < 6000) :
    parseIso d.isoformat = some d := by
  obtain ⟨y, mo, da, h, mi, s, us, off⟩ := d
  simp only at hy hmo hda hh hmi hs hus hoff
  simp only [Datetime.isoformat]
  cases off with
  | none =>
      by_cases hus0 : us = 0
      · subst hus0
        rw [if_neg (by decide : ¬ ((0 : Nat) ≠ 0))]
        simp only [List.append_assoc, List.cons_append, List.append_nil,
          List.nil_append]
        have L1 := parseIsoDateTime_build y mo da h mi s hy hmo hda hh hmi hs []
        rw [List.append_nil] at L1
        simp only [parseIso, L1, parseIsoFraction_nil, parseIsoOffset]
      · rw [if_pos hus0]
        simp only [List.append_assoc, List.cons_append, List.append_nil,
          List.nil_append]
        have e7 := parseFixedNat_natDigits 6 us (lt_of_lt_of_le hus (by norm_num)) []
        rw [List.append_nil] at e7
        have L1 := parseIsoDateTime_build y mo da h mi s hy hmo hda hh hmi hs
          ('.' :: natDigits 6 us)
        simp only [parseIso, L1, parseIsoFraction_dot, e7, parseIsoOffset]
  | some m =>
      have habs : m.natAbs < 6000 := hoff m rfl
      dsimp only
      by_cases hm : m < 0
      · rw [if_pos hm]
        have LOff := parseIsoOffset_build '-' m.natAbs habs (Or.inr rfl)
        rw [if_pos rfl] at LOff
        have hcast : -((m.natAbs : Int)) = m := by omega
        rw [hcast] at LOff
        by_cases hus0 : us = 0
        · subst hus0
          rw [if_neg (by decide : ¬ ((0 : Nat) ≠ 0))]
          simp only [List.append_assoc, List.cons_append, List.append_nil,
            List.nil_append]
          have L1 := parseIsoDateTime_build y mo da h mi s hy hmo hda hh hmi hs
            ('-' :: (natDigits 2 (m.natAbs / 60) ++ ':' :: natDigits 2 (m.natAbs % 60)))
          simp only [parseIso, L1, parseIsoFraction_dash, LOff]
        · rw [if_pos hus0]
          simp only [List.append_assoc, List.cons_append, List.append_nil,
            List.nil_append]
          have e7 := parseFixedNat_natDigits 6 us (lt_of_lt_of_le hus (by norm_num))
            ('-' :: (natDigits 2 (m.natAbs / 60) ++ ':' :: natDigits 2 (m.natAbs % 60)))
          have L1 := parseIsoDateTime_build y mo da h mi s hy hmo hda hh hmi hs
            ('.' :: (natDigits 6 us ++
              '-' :: (natDigits 2 (m.natAbs / 60) ++ ':' :: natDigits 2 (m.natAbs % 60))))
          simp only [parseIso, L1, parseIsoFraction_dot, e7, LOff]
      · rw [if_neg hm]
        have LOff := parseIsoOffset_build '+' m.natAbs habs (Or.inl rfl)
        rw [if_neg (by decide : ¬ ('+' = '-'))] at LOff
        have hcast : ((m.natAbs : Int)) = m := by omega
        rw [hcast] at LOff
        by_cases hus0 : us = 0
        · subst hus0
          rw [if_neg (by decide : ¬ ((0 : Nat) ≠ 0))]
          simp only [List.append_assoc, List.cons_append, List.append_nil,
            List.nil_append]
          have L1 := parseIsoDateTime_build y mo da h mi s hy hmo hda hh hmi hs
            ('+' :: (natDigits 2 (m.natAbs / 60) ++ ':' :: natDigits 2 (m.natAbs % 60)))
          simp only [parseIso, L1, parseIsoFraction_plus, LOff]
        · rw [if_pos hus0]
          simp only [List.append_assoc, List.cons_append, List.append_nil,
            List.nil_append]
          have e7 := parseFixedNat_natDigits 6 us (lt_of_lt_of_le hus (by norm_num))
            ('+' :: (natDigits 2 (m.natAbs / 60) ++ ':' :: natDigits 2 (m.natAbs % 60)))
          have L1 := parseIsoDateTime_build y mo da h mi s hy hmo hda hh hmi hs
            ('.' :: (natDigits 6 us ++
              '+' :: (natDigits 2 (m.natAbs / 60) ++ ':' :: natDigits 2 (m.natAbs % 60))))
          simp only [parseIso, L1, parseIsoFraction_dot, e7, LOff]

/-- The enum value string maps back to the member. -/
theorem CrawlStatus.ofValue_value (st : CrawlStatus) :
    CrawlStatus.ofValue st.value = some st := by
  cases st <;> rfl

/-- `from_dict ∘ to_dict` restores the result with `html` and `headers`
reset to their defaults — every other field survives. -/
theorem from_dict_to_dict (r : CrawlResult)
    (hy : r.crawled_at.year < 10000) (hmo : r.crawled_at.month < 100)
    (hda : r.crawled_at.day < 100) (hh : r.crawled_at.hour < 100)
    (hmi : r.crawled_at.minute < 100) (hs : r.crawled_at.second < 100)
    (hus : r.crawled_at.microsecond < 1000000)
    (hoff : ∀ m, r.crawled_at.utcOffsetMinutes = some m → m.natAbs < 6000) :
    CrawlResult.from_dict (CrawlResult.to_dict r) =
      some { r with html := "", headers := [] } := by
  unfold CrawlResult.from_dict CrawlResult.to_dict
  dsimp only
  rw [parseIso_isoformat r.crawled_at hy hmo hda hh hmi hs hus hoff,
    CrawlStatus.ofValue_value]

/-- C9.  For every result whose timestamp satisfies the invariants of
the `datetime` class, `from_dict(to_dict(r))` equals `r` on all thirteen
persisted fields. -/
theorem C9_to_dict_from_dict_roundtrip (r : CrawlResult)
    (hy : r.crawled_at.year < 10000) (hmo : r.crawled_at.month < 100)
    (hda : r.crawled_at.day < 100) (hh : r.crawled_at.hour < 100)
    (hmi : r.crawled_at.minute < 100) (hs : r.crawled_at.second < 100)
    (hus : r.crawled_at.microsecond < 1000000)
    (hoff : ∀ m, r.crawled_at.utcOffsetMinutes = some m → m.natAbs < 6000) :
    ∃ r₂, CrawlResult.from_dict (CrawlResult.to_dict r) = some r₂ ∧
      r₂.url = r.url ∧ r₂.status_code = r.status_code ∧
      r₂.content_type = r.content_type ∧ r₂.text = r.text ∧
      r₂.title = r.title ∧ r₂.links = r.links ∧ r₂.metadata = r.metadata ∧
      r₂.crawled_at = r.crawled_at ∧ r₂.depth = r.depth ∧
      r₂.parent_url = r.parent_url ∧ r₂.elapsed_time = r.elapsed_time ∧
      r₂.status = r.status ∧ r₂.error = r.error :=
  ⟨{ r with html := "", headers := [] },
    from_dict_to_dict r hy hmo hda hh hmi hs hus hoff,
    rfl, rfl, rfl, rfl, rfl, rfl, rfl, rfl, rfl, rfl, rfl, rfl, rfl⟩

/-- Witness for C9 at a fully populated result. -/
theorem C9_witness :
    ∃ r₂, CrawlResult.from_dict (CrawlResult.to_dict
        { url := "https://e.com", status_code := 200, content_type := "text/html",
          html := "<html></html>", text := "hello", title := "T",
          links := ["https://e.com/a"], metadata := [("description", "d")],
          crawled_at := epochDatetime, depth := 1,
          parent_url := some "https://e.com/p", elapsed_time := 1/2,
          status := CrawlStatus.completed, error := none,
          headers := [("Content-Type", "text/html")] }) = some r₂ ∧
      r₂.url = "https://e.com" ∧ r₂.status_code = 200 ∧
      r₂.content_type = "text/html" ∧ r₂.text = "hello" ∧
      r₂.title = "T" ∧ r₂.links = ["https://e.com/a"] ∧
      r₂.metadata = [("description", "d")] ∧
      r₂.crawled_at = epochDatetime ∧ r₂.depth = 1 ∧
      r₂.parent_url = some "https://e.com/p" ∧ r₂.elapsed_time = 1/2 ∧
      r₂.status = CrawlStatus.completed ∧ r₂.error = none :=
  C9_to_dict_from_dict_roundtrip
    { url := "https://e.com", status_code := 200, content_type := "text/html",
      html := "<html></html>", text := "hello", title := "T",
      links := ["https://e.com/a"], metadata := [("description", "d")],
      crawled_at := epochDatetime, depth := 1,
      parent_url := some "https://e.com/p", elapsed_time := 1/2,
      status := CrawlStatus.completed, error := none,
      headers := [("Content-Type", "text/html")] }
    (by decide) (by decide) (by decide) (by decide) (by decide) (by decide)
    (by decide)
    (by intro m hm; simp only [epochDatetime, Option.some.injEq] at hm
        subst hm; decide)

/-- C10.  After `save(r)`, `get(r.url)` returns a record whose `html` is
the empty string and whose `headers` mapping is empty, whatever `r`
carried in those fields: `to_dict` writes neither key, and `from_dict`
fills both with their defaults. -/
theorem C10_json_storage_drops_html_headers (store : JsonStorage)
    (r : CrawlResult)
    (hy : r.crawled_at.year < 10000) (hmo : r.crawled_at.month < 100)
    (hda : r.crawled_at.day < 100) (hh : r.crawled_at.hour < 100)
    (hmi : r.crawled_at.minute < 100) (hs : r.crawled_at.second < 100)
    (hus : r.crawled_at.microsecond < 1000000)
    (hoff : ∀ m, r.crawled_at.utcOffsetMinutes = some m → m.natAbs < 6000) :
    ∃ r₂, (store.save r).get r.url = some r₂ ∧
      r₂.html = "" ∧ r₂.headers = [] := by
  refine ⟨{ r with html := "", headers := [] }, ?_, rfl, rfl⟩
  unfold JsonStorage.save JsonStorage.get
  simp only [List.lookup, beq_self_eq_true]
  exact from_dict_to_dict r hy hmo hda hh hmi hs hus hoff

/-- Witness for C10: a result saved with raw HTML and headers comes back
without either. -/
theorem C10_witness :
    ∃ r₂, (JsonStorage.get
        (JsonStorage.save { results := [] }
          { url := "https://e.com", html := "<body>raw</body>",
            crawled_at := epochDatetime,
            headers := [("Server", "nginx")] })
        "https://e.com") = some r₂ ∧
      r₂.html = "" ∧ r₂.headers = [] :=
  C10_json_storage_drops_html_headers { results := [] }
    { url := "https://e.com", html := "<body>raw</body>",
      crawled_at := epochDatetime, headers := [("Server", "nginx")] }
    (by decide) (by decide) (by decide) (by decide) (by decide) (by decide)
    (by decide)
    (by intro m hm; simp only [epochDatetime, Option.some.injEq] at hm
        subst hm; decide)

end Crawler

namespace UrlModel

theorem toNat_ofNat_of_lt (n : Nat) (h : n < 55296) : (Char.ofNat n).toNat = n := by
  have hv : n.isValidChar := Or.inl h
  rw [Char.ofNat, dif_pos hv]
  rfl

theorem char_eq_iff_toNat (c d : Char) : c = d ↔ c.toNat = d.toNat := by
  constructor
  · intro h; rw [h]
  · intro h
    have := congrArg Char.ofNat h
    rwa [Char.ofNat_toNat, Char.ofNat_toNat] at this

theorem lowerChar_toNat (c : Char) :
    (lowerChar c).toNat =
      if 65 ≤ c.toNat ∧ c.toNat ≤ 90 then c.toNat + 32 else c.toNat := by
  unfold lowerChar
  by_cases h : 65 ≤ c.toNat ∧ c.toNat ≤ 90
  · rw [if_pos h, if_pos h, toNat_ofNat_of_lt _ (by omega)]
  · rw [if_neg h, if_neg h]

end UrlModel

namespace UrlModel

theorem isAsciiAlpha_iff (c : Char) :
    isAsciiAlpha c = true ↔
      (65 ≤ c.toNat ∧ c.toNat ≤ 90) ∨ (97 ≤ c.toNat ∧ c.toNat ≤ 122) := by
  simp [isAsciiAlpha, Bool.or_eq_true, Bool.and_eq_true, decide_eq_true_eq]

theorem isAsciiDigit_iff (c : Char) :
    isAsciiDigit c = true ↔ 48 ≤ c.toNat ∧ c.toNat ≤ 57 := by
  simp [isAsciiDigit, Bool.and_eq_true, decide_eq_true_eq]

theorem ne_char_of_toNat (c d : Char) (h : c.toNat ≠ d.toNat) : c ≠ d := by
  intro he
  exact h ((char_eq_iff_toNat c d).mp he)

theorem lowerChar_alpha (c : Char) (h : isAsciiAlpha c = true) :
    isAsciiAlpha (lowerChar c) = true := by
  rw [isAsciiAlpha_iff] at h ⊢
  rw [lowerChar_toNat]
  rcases h with h | h
  · rw [if_pos h]; omega
  · rw [if_neg (by omega)]; omega

theorem lowerChar_scheme (c : Char) (h : isSchemeChar c = true) :
    isSchemeChar (lowerChar c) = true := by
  simp only [isSchemeChar, Bool.or_eq_true, beq_iff_eq] at h ⊢
  rcases h with (((ha | hd) | hp) | hm) | hdot
  · exact Or.inl (Or.inl (Or.inl (Or.inl (lowerChar_alpha c ha))))
  · refine Or.inl (Or.inl (Or.inl (Or.inr ?_)))
    rw [isAsciiDigit_iff] at hd ⊢
    rw [lowerChar_toNat, if_neg (by omega)]
    exact hd
  · subst hp
    exact Or.inl (Or.inl (Or.inr (by decide)))
  · subst hm
    exact Or.inl (Or.inr (by decide))
  · subst hdot
    exact Or.inr (by decide)

theorem lowerChar_idem (c : Char) : lowerChar (lowerChar c) = lowerChar c := by
  have h1 := lowerChar_toNat c
  have h2 := lowerChar_toNat (lowerChar c)
  rw [char_eq_iff_toNat, h2, h1]
  split_ifs <;> omega

theorem lowerStr_idem (cs : List Char) : lowerStr (lowerStr cs) = lowerStr cs := by
  unfold lowerStr
  rw [List.map_map]
  exact List.map_congr_left (fun c _ => by
    simp only [Function.comp_apply]
    exact lowerChar_idem c)

theorem lowerChar_hostOk (c : Char) (h : hostOk c) : hostOk (lowerChar c) := by
  unfold hostOk at h ⊢
  obtain ⟨h1, h2, h3, h4, h5, h6, h7, h8⟩ := h
  have v1 : ('/' : Char).toNat = 47 := by decide
  have v2 : ('?' : Char).toNat = 63 := by decide
  have v3 : ('#' : Char).toNat = 35 := by decide
  have v4 : ('[' : Char).toNat = 91 := by decide
  have v5 : (']' : Char).toNat = 93 := by decide
  have v6 : ('\t' : Char).toNat = 9 := by decide
  have v7 : ('\r' : Char).toNat = 13 := by decide
  have v8 : ('\n' : Char).toNat = 10 := by decide
  by_cases hc : 65 ≤ c.toNat ∧ c.toNat ≤ 90
  · refine ⟨?_, ?_, ?_, ?_, ?_, ?_, ?_, ?_⟩ <;>
      · apply ne_char_of_toNat
        rw [lowerChar_toNat, if_pos hc]
        omega
  · have : lowerChar c = c := by
      rw [char_eq_iff_toNat, lowerChar_toNat, if_neg hc]
    rw [this]
    exact ⟨h1, h2, h3, h4, h5, h6, h7, h8⟩

end UrlModel

namespace UrlModel

theorem takeWhile_append_all (p : Char → Bool) (a : List Char)
    (ha : ∀ c ∈ a, p c = true) (b : List Char) :
    (a ++ b).takeWhile p = a ++ b.takeWhile p := by
  induction a with
  | nil => simp
  | cons x xs ih =>
      have hx : p x = true := ha x (List.mem_cons_self x xs)
      simp only [List.cons_append, List.takeWhile_cons_of_pos hx]
      rw [ih (fun c hc => ha c (List.mem_cons_of_mem x hc))]

theorem dropWhile_append_all (p : Char → Bool) (a : List Char)
    (ha : ∀ c ∈ a, p c = true) (b : List Char) :
    (a ++ b).dropWhile p = b.dropWhile p := by
  induction a with
  | nil => simp
  | cons x xs ih =>
      have hx : p x = true := ha x (List.mem_cons_self x xs)
      simp only [List.cons_append, List.dropWhile_cons_of_pos hx]
      exact ih (fun c hc => ha c (List.mem_cons_of_mem x hc))

theorem span_append_stop (p : Char → Bool) (a b : List Char)
    (ha : ∀ c ∈ a, p c = true)
    (hb : ∀ c, b.head? = some c → p c = false) :
    (a ++ b).span p = (a, b) := by
  rw [List.span_eq_take_drop, takeWhile_append_all p a ha b,
    dropWhile_append_all p a ha b]
  cases b with
  | nil => simp
  | cons x xs =>
      have hx : p x = false := hb x rfl
      rw [List.takeWhile_cons_of_neg (by simp [hx]),
        List.dropWhile_cons_of_neg (by simp [hx])]
      simp

theorem splitOnceChar_not_mem (c : Char) (cs : List Char) (h : c ∉ cs) :
    splitOnceChar c cs = (cs, none) := by
  induction cs with
  | nil => rfl
  | cons x xs ih =>
      have hx : ¬ x = c := fun he => h (he ▸ List.mem_cons_self x xs)
      rw [splitOnceChar, if_neg hx, ih (fun hm => h (List.mem_cons_of_mem x hm))]

theorem splitOnceChar_append (c : Char) (a b : List Char) (h : c ∉ a) :
    splitOnceChar c (a ++ c :: b) = (a, some b) := by
  induction a with
  | nil => simp [splitOnceChar]
  | cons x xs ih =>
      have hx : ¬ x = c := fun he => h (he ▸ List.mem_cons_self x xs)
      rw [List.cons_append, splitOnceChar, if_neg hx,
        ih (fun hm => h (List.mem_cons_of_mem x hm))]

theorem removeUnsafe_eq_self (cs : List Char)
    (h : ∀ c ∈ cs, isUnsafeByte c = false) : removeUnsafe cs = cs := by
  unfold removeUnsafe
  rw [List.filter_eq_self]
  intro c hc
  simp [h c hc]

theorem lstripC0_cons_neg (c : Char) (cs : List Char)
    (h : isC0OrSpace c = false) : lstripC0 (c :: cs) = c :: cs := by
  unfold lstripC0
  rw [List.dropWhile_cons_of_neg (by simp [h])]

end UrlModel

namespace UrlModel

theorem schemeChar_toNat_ge (c : Char) (h : isSchemeChar c = true) :
    43 ≤ c.toNat := by
  simp only [isSchemeChar, Bool.or_eq_true, beq_iff_eq] at h
  rcases h with (((ha | hd) | hp) | hm) | hdot
  · rw [isAsciiAlpha_iff] at ha; omega
  · rw [isAsciiDigit_iff] at hd; omega
  · subst hp; decide
  · subst hm; decide
  · subst hdot; decide

theorem safe_of_toNat_ge (c : Char) (h : 14 ≤ c.toNat) :
    isUnsafeByte c = false := by
  have v6 : ('\t' : Char).toNat = 9 := by decide
  have v7 : ('\r' : Char).toNat = 13 := by decide
  have v8 : ('\n' : Char).toNat = 10 := by decide
  simp only [isUnsafeByte, Bool.or_eq_false_iff, beq_eq_false_iff_ne]
  refine ⟨⟨?_, ?_⟩, ?_⟩ <;> (apply ne_char_of_toNat; omega)

theorem schemeChar_safe (c : Char) (h : isSchemeChar c = true) :
    isUnsafeByte c = false :=
  safe_of_toNat_ge c (le_trans (by norm_num) (schemeChar_toNat_ge c h))

theorem hostOk_safe (c : Char) (h : hostOk c) : isUnsafeByte c = false := by
  simp only [isUnsafeByte, Bool.or_eq_false_iff, beq_eq_false_iff_ne]
  exact ⟨⟨h.2.2.2.2.2.1, h.2.2.2.2.2.2.1⟩, h.2.2.2.2.2.2.2⟩

theorem pathOk_safe (c : Char) (h : pathOk c) : isUnsafeByte c = false := by
  simp only [isUnsafeByte, Bool.or_eq_false_iff, beq_eq_false_iff_ne]
  exact ⟨⟨h.2.2.2.1, h.2.2.2.2.1⟩, h.2.2.2.2.2⟩

theorem queryOk_safe (c : Char) (h : queryOk c) : isUnsafeByte c = false := by
  simp only [isUnsafeByte, Bool.or_eq_false_iff, beq_eq_false_iff_ne]
  exact ⟨⟨h.2.1, h.2.2.1⟩, h.2.2.2⟩

theorem alpha_not_c0 (c : Char) (h : isAsciiAlpha c = true) :
    isC0OrSpace c = false := by
  rw [isAsciiAlpha_iff] at h
  simp only [isC0OrSpace, decide_eq_false_iff_not, not_le]
  omega

theorem hostOk_netlocChar (c : Char) (h : hostOk c) :
    (!(c == '/' || c == '?' || c == '#')) = true := by
  simp only [Bool.not_eq_true', Bool.or_eq_false_iff, beq_eq_false_iff_ne]
  exact ⟨⟨h.1, h.2.1⟩, h.2.2.1⟩

end UrlModel

namespace UrlModel

theorem splitScheme_wf (c₀ : Char) (sch rest : List Char)
    (hc₀ : isAsciiAlpha c₀ = true)
    (hsch : ∀ c ∈ sch, isSchemeChar c = true) :
    splitScheme ((c₀ :: sch) ++ ':' :: rest) = (lowerStr (c₀ :: sch), rest) := by
  have hall : ∀ c ∈ c₀ :: sch, isSchemeChar c = true := by
    intro c hc
    rcases List.mem_cons.mp hc with rfl | hm
    · simp only [isSchemeChar, Bool.or_eq_true]
      exact Or.inl (Or.inl (Or.inl (Or.inl hc₀)))
    · exact hsch c hm
  unfold splitScheme
  rw [span_append_stop _ _ _ hall
    (by intro c hc; injection hc with hc; subst hc; decide)]
  dsimp only
  rw [if_pos rfl, if_pos hc₀]

theorem splitNetloc_wf (host rest : List Char)
    (hhost : ∀ c ∈ host, hostOk c)
    (hrest : ∀ c, rest.head? = some c →
      (!(c == '/' || c == '?' || c == '#')) = false) :
    splitNetloc ('/' :: '/' :: (host ++ rest)) = (host, rest) := by
  unfold splitNetloc
  cases hh : host ++ rest with
  | nil =>
      have h1 : host = [] := by
        cases host with
        | nil => rfl
        | cons x xs => simp at hh
      have h2 : rest = [] := by
        subst h1; simpa using hh
      subst h1; subst h2
      dsimp only
      rw [if_pos ⟨rfl, rfl⟩]
      simp [List.span_eq_take_drop]
  | cons x xs =>
      dsimp only
      rw [if_pos ⟨rfl, rfl⟩]
      rw [← hh]
      rw [span_append_stop _ _ _ (fun c hc => hostOk_netlocChar c (hhost c hc)) hrest]

end UrlModel

namespace UrlModel

theorem bracketMismatch_of_hostOk (host : List Char)
    (hhost : ∀ c ∈ host, hostOk c) : bracketMismatch host = false := by
  have h1 : host.contains '[' = false := by
    by_contra hcon
    rw [Bool.not_eq_false] at hcon
    have hm : '[' ∈ host := by
      rwa [List.contains, List.elem_iff] at hcon
    exact (hhost _ hm).2.2.2.1 rfl
  have h2 : host.contains ']' = false := by
    by_contra hcon
    rw [Bool.not_eq_false] at hcon
    have hm : ']' ∈ host := by
      rwa [List.contains, List.elem_iff] at hcon
    exact (hhost _ hm).2.2.2.2.1 rfl
  unfold bracketMismatch
  rw [h1, h2]
  rfl

theorem urlsplit_wf (c₀ : Char) (sch host path q : List Char) (qp : Bool)
    (hc₀ : isAsciiAlpha c₀ = true)
    (hsch : ∀ c ∈ sch, isSchemeChar c = true)
    (hhost : ∀ c ∈ host, hostOk c)
    (hpshape : path = [] ∨ path.head? = some '/')
    (hpath : ∀ c ∈ path, pathOk c)
    (hq : ∀ c ∈ q, queryOk c) :
    urlsplit (c₀ :: (sch ++ ':' :: '/' :: '/' ::
        (host ++ (path ++ (if qp then '?' :: q else []))))) =
      some ⟨lowerStr (c₀ :: sch), host, path, (if qp then q else []), []⟩ := by
  have hqsafe : ∀ c ∈ (if qp then '?' :: q else []), isUnsafeByte c = false := by
    cases qp with
    | false => simp
    | true =>
        intro c hc
        rcases List.mem_cons.mp hc with rfl | hm
        · decide
        · exact queryOk_safe c (hq c hm)
  have hsafe : ∀ c ∈ c₀ :: (sch ++ ':' :: '/' :: '/' ::
      (host ++ (path ++ (if qp then '?' :: q else [])))), isUnsafeByte c = false := by
    intro c hc
    rcases List.mem_cons.mp hc with rfl | hc
    · exact schemeChar_safe c (by
        simp only [isSchemeChar, Bool.or_eq_true]
        exact Or.inl (Or.inl (Or.inl (Or.inl hc₀))))
    rcases List.mem_append.mp hc with hc | hc
    · exact schemeChar_safe c (hsch c hc)
    rcases List.mem_cons.mp hc with rfl | hc
    · decide
    rcases List.mem_cons.mp hc with rfl | hc
    · decide
    rcases List.mem_cons.mp hc with rfl | hc
    · decide
    rcases List.mem_append.mp hc with hc | hc
    · exact hostOk_safe c (hhost c hc)
    rcases List.mem_append.mp hc with hc | hc
    · exact pathOk_safe c (hpath c hc)
    · exact hqsafe c hc
  unfold urlsplit
  rw [removeUnsafe_eq_self _ hsafe]
  rw [lstripC0_cons_neg _ _ (alpha_not_c0 c₀ hc₀)]
  rw [show c₀ :: (sch ++ ':' :: '/' :: '/' ::
      (host ++ (path ++ (if qp then '?' :: q else [])))) =
    (c₀ :: sch) ++ ':' :: '/' :: '/' ::
      (host ++ (path ++ (if qp then '?' :: q else []))) from rfl]
  rw [splitScheme_wf c₀ sch _ hc₀ hsch]
  dsimp only
  rw [splitNetloc_wf host _ hhost (by
    intro c hc
    rcases hpshape with rfl | hp
    · cases qp with
      | false => simp at hc
      | true =>
          simp only [List.nil_append] at hc
          injection hc with hc
          subst hc
          decide
    · cases path with
      | nil => simp at hp
      | cons x xs =>
          injection hp with hp
          subst hp
          simp only [List.cons_append, List.head?_cons] at hc
          injection hc with hc
          subst hc
          decide)]
  dsimp only
  rw [bracketMismatch_of_hostOk host hhost]
  rw [if_neg (by decide : ¬ (false = true))]
  have hfrag : splitOnceChar '#' (path ++ (if qp then '?' :: q else [])) =
      (path ++ (if qp then '?' :: q else []), none) := by
    apply splitOnceChar_not_mem
    intro hm
    rcases List.mem_append.mp hm with hm | hm
    · exact (hpath _ hm).2.2.1 rfl
    · cases qp with
      | false => simp at hm
      | true =>
          rcases List.mem_cons.mp hm with he | hm
          · exact absurd he (by decide)
          · exact (hq _ hm).1 rfl
  rw [hfrag]
  dsimp only
  cases qp with
  | false =>
      simp only [show (if false = true then '?' :: q else []) = ([] : List Char)
          from rfl,
        show (if false = true then q else []) = ([] : List Char) from rfl,
        List.append_nil]
      rw [splitOnceChar_not_mem '?' path (fun hm => (hpath _ hm).2.1 rfl)]
      rfl
  | true =>
      simp only [eq_self_iff_true, if_true]
      rw [splitOnceChar_append '?' path q (fun hm => (hpath _ hm).2.1 rfl)]
      rfl

end UrlModel

namespace UrlModel

theorem lowerStr_cons (c : Char) (cs : List Char) :
    lowerStr (c :: cs) = lowerChar c :: lowerStr cs := rfl

theorem lowerStr_ne_nil (cs : List Char) (h : cs ≠ []) : lowerStr cs ≠ [] := by
  intro hcon
  exact h (List.map_eq_nil_iff.mp hcon)

theorem urlparse_wf (c₀ : Char) (sch host path q : List Char) (qp : Bool)
    (hc₀ : isAsciiAlpha c₀ = true)
    (hsch : ∀ c ∈ sch, isSchemeChar c = true)
    (hhost : ∀ c ∈ host, hostOk c)
    (hpshape : path = [] ∨ path.head? = some '/')
    (hpath : ∀ c ∈ path, pathOk c)
    (hq : ∀ c ∈ q, queryOk c) :
    urlparse (c₀ :: (sch ++ ':' :: '/' :: '/' ::
        (host ++ (path ++ (if qp then '?' :: q else []))))) =
      some ⟨lowerStr (c₀ :: sch), host, path, [], (if qp then q else []), []⟩ := by
  have hcon : path.contains ';' = false := by
    by_contra hcc
    rw [Bool.not_eq_false] at hcc
    have hm : ';' ∈ path := by rwa [List.contains, List.elem_iff] at hcc
    exact (hpath _ hm).1 rfl
  unfold urlparse
  rw [urlsplit_wf c₀ sch host path q qp hc₀ hsch hhost hpshape hpath hq,
    Option.map_some']
  dsimp only
  rw [if_neg (by
    intro hand
    rw [hcon] at hand
    exact Bool.false_ne_true hand.2)]

theorem urlunsplit_wf (scheme netloc path query : List Char)
    (hs : scheme ≠ []) (hn : netloc ≠ [])
    (hp : path = [] ∨ path.head? = some '/') :
    urlunsplit scheme netloc path query [] =
      scheme ++ ':' :: '/' :: '/' ::
        (netloc ++ (path ++ (if query = [] then [] else '?' :: query))) := by
  have hp' : ¬ (path ≠ [] ∧ path.head? ≠ some '/') := by
    rcases hp with rfl | h
    · intro hand; exact hand.1 rfl
    · intro hand; exact hand.2 h
  have hfrag : ¬ (([] : List Char) ≠ []) := fun h => h rfl
  simp only [urlunsplit]
  rw [if_pos (Or.inl hn), if_neg hp', if_pos hs, if_neg hfrag]
  by_cases hq : query = []
  · subst hq
    rw [if_neg hfrag, if_pos rfl]
    simp [List.append_assoc]
  · rw [if_pos hq, if_neg hq]
    simp [List.append_assoc]

theorem urlunparse_nil_params (scheme netloc path query fragment : List Char) :
    urlunparse scheme netloc path [] query fragment =
      urlunsplit scheme netloc path query fragment := by
  simp only [urlunparse]
  rw [if_neg (fun h => h rfl)]

theorem rstripSlashes_pre (cs : List Char) : rstripSlashes cs <+: cs := by
  unfold rstripSlashes
  have h : cs.reverse.dropWhile (fun c => c == '/') <:+ cs.reverse :=
    List.dropWhile_suffix _
  have h2 := List.reverse_prefix.mpr h
  rwa [List.reverse_reverse] at h2

theorem mem_normPath (path : List Char) (c : Char) (h : c ∈ normPath path) :
    c ∈ path := by
  unfold normPath at h
  by_cases hc : path ≠ ['/'] ∧ path.getLast? = some '/'
  · rw [if_pos hc] at h
    exact (rstripSlashes_pre path).sublist.subset h
  · rwa [if_neg hc] at h

theorem rstripSlashes_getLast (cs : List Char) :
    (rstripSlashes cs).getLast? ≠ some '/' := by
  unfold rstripSlashes
  rw [List.getLast?_reverse]
  intro h
  cases hd : cs.reverse.dropWhile (fun c => c == '/') with
  | nil => rw [hd] at h; exact Option.noConfusion h
  | cons x xs =>
      rw [hd] at h
      injection h with h
      subst h
      have hfalse := Crawler.head_dropWhile_false _ _ _ _ hd
      simp at hfalse

theorem normPath_idem (path : List Char) :
    normPath (normPath path) = normPath path := by
  by_cases h : path ≠ ['/'] ∧ path.getLast? = some '/'
  · have e : normPath path = rstripSlashes path := by
      unfold normPath; rw [if_pos h]
    rw [e]
    unfold normPath
    rw [if_neg (fun hand => rstripSlashes_getLast path hand.2)]
  · have e : normPath path = path := by
      unfold normPath; rw [if_neg h]
    rw [e]
    exact e

theorem normPath_shape (path : List Char)
    (h : path = [] ∨ path.head? = some '/') :
    normPath path = [] ∨ (normPath path).head? = some '/' := by
  rcases h with rfl | h
  · left; rfl
  · cases hc : normPath path with
    | nil => exact Or.inl rfl
    | cons x xs =>
        right
        have hpre : normPath path <+: path := by
          unfold normPath
          by_cases hb : path ≠ ['/'] ∧ path.getLast? = some '/'
          · rw [if_pos hb]; exact rstripSlashes_pre path
          · rw [if_neg hb]
        rw [hc] at hpre
        obtain ⟨t, ht⟩ := hpre
        cases path with
        | nil => exact Option.noConfusion h
        | cons y ys =>
            rw [List.head?_cons] at h
            injection h with h
            rw [List.cons_append] at ht
            injection ht with h1 h2
            rw [List.head?_cons, h1, h]

theorem qpart_eq (qp : Bool) (q : List Char) :
    (if (if qp then q else []) = ([] : List Char) then ([] : List Char)
      else '?' :: (if qp then q else [])) =
      (if qp = true ∧ q ≠ [] then '?' :: q else []) := by
  cases qp with
  | false => simp
  | true =>
      by_cases hq : q = []
      · subst hq; simp
      · simp [hq]

theorem normalizeUrl_wf_val (strip : Bool) (c₀ : Char)
    (sch host path q : List Char) (qp : Bool)
    (hc₀ : isAsciiAlpha c₀ = true)
    (hsch : ∀ c ∈ sch, isSchemeChar c = true)
    (hne : host ≠ [])
    (hhost : ∀ c ∈ host, hostOk c)
    (hpshape : path = [] ∨ path.head? = some '/')
    (hpath : ∀ c ∈ path, pathOk c)
    (hq : ∀ c ∈ q, queryOk c) :
    normalizeUrl strip (c₀ :: (sch ++ ':' :: '/' :: '/' ::
        (host ++ (path ++ (if qp then '?' :: q else []))))) =
      some (lowerStr (c₀ :: sch) ++ ':' :: '/' :: '/' ::
        (lowerStr host ++ (normPath path ++
          (if qp = true ∧ q ≠ [] then '?' :: q else [])))) := by
  unfold normalizeUrl
  rw [urlparse_wf c₀ sch host path q qp hc₀ hsch hhost hpshape hpath hq,
    Option.map_some']
  dsimp only
  have hfrag : (if strip = true then [] else ([] : List Char)) = [] := by
    cases strip <;> rfl
  rw [hfrag, urlunparse_nil_params,
    urlunsplit_wf _ _ _ _
      (lowerStr_ne_nil _ (lowerStr_ne_nil _ (List.cons_ne_nil c₀ sch)))
      (lowerStr_ne_nil _ hne)
      (normPath_shape path hpshape),
    lowerStr_idem, qpart_eq]

end UrlModel

namespace UrlModel

/-! ## C6: idempotence of URL normalization -/

/-- Counterexample to C6 as stated.  Normalization succeeds on
`http://h/a/;p/` and yields `http://h/a/;p`, but normalizing that output
again yields `http://h/a;p`: the first pass strips the trailing slash,
which moves `;p` into the last path segment, so the second pass splits it
off as parameters and reattaches it to the slash-stripped path —
`normalize (normalize u) ≠ normalize u`. -/
theorem C6_counterexample :
    normalizeUrl true ("http://h/a/;p/".data) = some ("http://h/a/;p".data) ∧
    normalizeUrl true ("http://h/a/;p".data) = some ("http://h/a;p".data) ∧
    some ("http://h/a;p".data) ≠ some ("http://h/a/;p".data) := by
  refine ⟨by rfl, by rfl, by decide⟩

/-- C6 amended.  Normalization is idempotent on well-formed absolute URLs
`scheme://host/path[?query]`: an ASCII-letter-led scheme of scheme
characters, a nonempty host free of delimiters, brackets and stripped
bytes, an empty or `/`-led path free of `;`, `?`, `#` and stripped bytes,
and a query free of `#` and stripped bytes.  For such a URL the first
`_normalize_url` pass lowercases the scheme and host and strips the
trailing slashes of the path, and a second pass reproduces its output
exactly.  (By `C6_counterexample` the unrestricted claim fails: a `;` in
the last path segment interacts with trailing-slash stripping.) -/
theorem C6_normalize_idempotent_wf (strip : Bool) (c₀ : Char)
    (sch host path q : List Char) (qp : Bool) (n₁ : List Char)
    (hc₀ : isAsciiAlpha c₀ = true)
    (hsch : ∀ c ∈ sch, isSchemeChar c = true)
    (hne : host ≠ [])
    (hhost : ∀ c ∈ host, hostOk c)
    (hpshape : path = [] ∨ path.head? = some '/')
    (hpath : ∀ c ∈ path, pathOk c)
    (hq : ∀ c ∈ q, queryOk c)
    (h₁ : normalizeUrl strip (c₀ :: (sch ++ ':' :: '/' :: '/' ::
        (host ++ (path ++ (if qp then '?' :: q else []))))) = some n₁) :
    normalizeUrl strip n₁ = some n₁ := by
  rw [normalizeUrl_wf_val strip c₀ sch host path q qp hc₀ hsch hne hhost
    hpshape hpath hq] at h₁
  injection h₁ with h₁
  subst h₁
  have hsch' : ∀ c ∈ lowerStr sch, isSchemeChar c = true := by
    intro c hc
    obtain ⟨d, hd, rfl⟩ := List.mem_map.mp hc
    exact lowerChar_scheme d (hsch d hd)
  have hhost' : ∀ c ∈ lowerStr host, hostOk c := by
    intro c hc
    obtain ⟨d, hd, rfl⟩ := List.mem_map.mp hc
    exact lowerChar_hostOk d (hhost d hd)
  have hpath' : ∀ c ∈ normPath path, pathOk c :=
    fun c hc => hpath c (mem_normPath path c hc)
  have hps' := normPath_shape path hpshape
  rw [lowerStr_cons, List.cons_append]
  by_cases hQ : qp = true ∧ q ≠ []
  · rw [if_pos hQ]
    have e2 := normalizeUrl_wf_val strip (lowerChar c₀) (lowerStr sch)
      (lowerStr host) (normPath path) q true
      (lowerChar_alpha c₀ hc₀) hsch' (lowerStr_ne_nil _ hne) hhost' hps'
      hpath' hq
    rw [if_pos rfl, if_pos ⟨rfl, hQ.2⟩, lowerStr_cons, lowerChar_idem,
      lowerStr_idem, lowerStr_idem, normPath_idem, List.cons_append] at e2
    exact e2
  · rw [if_neg hQ]
    have hqnil : ∀ c ∈ ([] : List Char), queryOk c :=
      fun c hc => absurd hc (List.not_mem_nil c)
    have e2 := normalizeUrl_wf_val strip (lowerChar c₀) (lowerStr sch)
      (lowerStr host) (normPath path) [] false
      (lowerChar_alpha c₀ hc₀) hsch' (lowerStr_ne_nil _ hne) hhost' hps'
      hpath' hqnil
    rw [if_neg Bool.false_ne_true,
      if_neg (fun hand => Bool.false_ne_true hand.1),
      lowerStr_cons, lowerChar_idem, lowerStr_idem, lowerStr_idem,
      normPath_idem, List.cons_append] at e2
    exact e2

/-- Witness for the amended C6 theorem at the concrete well-formed URL
`http://Ex.COM/a/?x=1`, whose normal form `http://ex.com/a?x=1`
re-normalizes to itself. -/
theorem C6_witness :
    normalizeUrl true ("http://ex.com/a?x=1".data) =
      some ("http://ex.com/a?x=1".data) :=
  C6_normalize_idempotent_wf true 'h' "ttp".data "Ex.COM".data "/a/".data
    "x=1".data true ("http://ex.com/a?x=1".data)
    (by decide) (by decide) (by decide) (by decide)
    (Or.inr (by decide)) (by decide) (by decide) (by rfl)

end UrlModel
